import Mathlib

set_option maxRecDepth 8000

/-!
Verification of the tabular / region-mapping / ABS-aggregation core of the
maxious/terriajs repository, as a shallow embedding in Lean.

Sources embedded here:
* `src/Map/Dataset.js` (the `varTypeSet` version) and the `Variable` module
  (`Variable.js`): typed columns, min/max, enum interning, time parsing,
  dataset loading and accessors.
* `CsvCatalogItem.js` (region-mapping part): the region registry
  `regionWmsMap`, `determineRegionVar`, `determineRegionType`,
  `addRegionMap` and the load decision of `loadTable`.
* `AbsIttCatalogItem.js` (the `_absDataset` version): the active-code tree
  walk, `buildQueryFilters`, `createAnd`, the per-URL query cache and the
  merge/serialisation step of `updateAbsResults`.

Modelling conventions:
* JavaScript numbers are modelled as `Int`.  Every property checked here
  uses only equality, ordering and integer addition, where the double and
  the integer semantics agree on the inputs involved.  The float sentinel
  `1e-34` (`noData`) is modelled as a distinguished integer constant
  `noDataNum`: the code only ever compares cells with it for identity.
  `Number.MAX_VALUE` is an exact integer and is modelled exactly.
* A JS cell is `Option Value`: `none` models `null`/`undefined`.
  `Value.nan` models `NaN` (it compares as incomparable and prints "NaN").
* String helpers are re-implemented over character lists so that concrete
  witnesses evaluate inside the kernel; they agree with the JS string
  functions on the ASCII data exercised here.
* Asynchronous fetches are an oracle `fetch : String → CsvArray`; promise
  combinators are sequenced deterministically (single-threaded model).
* Code paths on which the JS program throws a `TypeError` are modelled by
  `Except.error ()` / `Option.none`, with a comment at each site.
-/

/-! ### JS value model -/

/-- A JavaScript primitive value as it occurs in the table pipeline. -/
inductive Value where
  | num (n : Int)
  | str (s : String)
  | nan
deriving DecidableEq, Repr

/-- A table cell; `none` models a `null`/`undefined` entry. -/
abbrev Cell := Option Value

/-- Exact integer value of `Number.MAX_VALUE` = (2^53 - 1) * 2^971. -/
def jsMaxValue : Int := 179769313486231570814527423731704356798070567525844996598917476803157260780028538760589558632766878171540458953514382464234321326889464182768467546703537516986049910576551282076245490090389328944075868508455133942304583236903222948165808559332123348274797826204144723168738177180919299881250404026184124858368

/-- Stand-in for the `noData` sentinel `1e-34` of `Dataset`/`Variable`.
The code only compares cells against it for identity, so any value not
used as real data is a faithful model; we use 10^34. -/
def noDataNum : Int := 10000000000000000000000000000000000

/-! ### String helpers (character-list based, kernel-reducible) -/

/-- Lower-case an ASCII character (models the effect of `toLowerCase` on
the ASCII names used by the hint tables). -/
def charLower (c : Char) : Char :=
  if 65 ≤ c.toNat ∧ c.toNat ≤ 90 then Char.ofNat (c.toNat + 32) else c

/-- Model of `String.prototype.toLowerCase`. -/
def toLowerStr (s : String) : String := String.mk (s.toList.map charLower)

/-- Model of `name.substring(0, p.length) === p`, i.e. a starts-with test. -/
def startsWithStr (s pre : String) : Bool := pre.toList.isPrefixOf s.toList

/-- Helper for `indexOf(sub) !== -1`: substring containment on char lists. -/
def listHasSub (needle : List Char) : List Char → Bool
  | [] => needle.isEmpty
  | c :: rest => needle.isPrefixOf (c :: rest) || listHasSub needle rest

/-- Model of `String.prototype.trim`. -/
def trimStr (s : String) : String :=
  String.mk (((s.toList.dropWhile (·.isWhitespace)).reverse.dropWhile (·.isWhitespace)).reverse)

/-- Digits of a char list read as a base-10 natural number. -/
def digitsToNat (l : List Char) : Nat := l.foldl (fun a c => 10 * a + (c.toNat - 48)) 0

/-- Simplified JS `ToNumber` on strings: trimmed, `""` is 0, optional sign,
decimal digits; anything else is `NaN` (`none`).  (Fractions/exponents are
not modelled; no test input uses them.) -/
def strToNumOpt (s : String) : Option Int :=
  match (trimStr s).toList with
  | [] => some 0
  | '-' :: ds => if !ds.isEmpty && ds.all Char.isDigit then some (-(digitsToNat ds : Int)) else none
  | ds => if ds.all Char.isDigit then some ((digitsToNat ds : Int)) else none

/-- JS `ToNumber` of a value; `none` models `NaN`. -/
def toNumberOpt : Value → Option Int
  | .num n => some n
  | .str s => strToNumOpt s
  | .nan => none

/-- Lexicographic order on char lists (JS compares strings by code unit). -/
def charListLt : List Char → List Char → Bool
  | [], [] => false
  | [], _ :: _ => true
  | _ :: _, [] => false
  | a :: as, b :: bs =>
    if a.toNat < b.toNat then true
    else if b.toNat < a.toNat then false
    else charListLt as bs

/-- JS abstract relational comparison `a < b`: string/string compares
lexicographically, otherwise both sides convert to number and any `NaN`
makes the comparison false. -/
def jsLt (a b : Value) : Bool :=
  match a, b with
  | .str s, .str t => charListLt s.toList t.toList
  | _, _ =>
    match toNumberOpt a, toNumberOpt b with
    | some x, some y => decide (x < y)
    | _, _ => false

/-- JS `a > b`, i.e. `b < a`. -/
def jsGt (a b : Value) : Bool := jsLt b a

/-- JS `String()` of a value (integer formatting only; the pipeline's region
ids and enum indices are integers). -/
def valueToString : Value → String
  | .num n => toString n
  | .str s => s
  | .nan => "NaN"

/-- JS `String()` of a cell; `undefined` prints as "undefined". -/
def cellToString : Cell → String
  | none => "undefined"
  | some v => valueToString v

/-- JS `+` on cells: string concatenation if either side is a string,
numeric addition on numbers, `NaN` otherwise (e.g. `undefined + 1`). -/
def jsAddCell (a b : Cell) : Cell :=
  match a, b with
  | some (.str _), _ => some (.str (cellToString a ++ cellToString b))
  | _, some (.str _) => some (.str (cellToString a ++ cellToString b))
  | some (.num x), some (.num y) => some (.num (x + y))
  | _, _ => some .nan

/-! ### VarType and Variable (`Variable.js`) -/

/-- Semantic kinds of a column (`VarType.js`). -/
inductive VarType where
  | LON | LAT | ALT | TIME | ENUM | SCALAR
deriving DecidableEq, Repr

/-- Parsed time instants (Cesium `JulianDate`) are modelled as integers. -/
abbrev JDate := Int

/-- The secondary variable holding parsed instants (`timeVar`). -/
structure TimeVariable where
  vals : List JDate := []
  minVal : Option JDate := none
  maxVal : Option JDate := none
deriving DecidableEq, Repr

/-- A single typed column (`Variable`).  `minVal`/`maxVal`/`timeVar`/
`enumList` start `undefined` (`none`) as in the constructor. -/
structure Variable where
  name : String := ""
  vals : List Cell := []
  varType : Option VarType := none
  minVal : Option Value := none
  maxVal : Option Value := none
  timeVar : Option TimeVariable := none
  enumList : Option (List Cell) := none
deriving DecidableEq, Repr

/-- The inner `matchColumn` of `Variable.guessVariableType`: hint matches
when the lower-cased name starts with the hint or contains the hint after
a space or an underscore. -/
def matchColumn (name : String) (hints : List String) : Bool :=
  let n := toLowerStr name
  hints.any (fun hint =>
    let h := toLowerStr hint
    startsWithStr n h || listHasSub (' ' :: h.toList) n.toList
      || listHasSub ('_' :: h.toList) n.toList)

/-- The fixed hint table of `guessVariableType`, in source order. -/
def hintSet : List (List String × VarType) :=
  [ (["lon"], .LON),
    (["lat"], .LAT),
    (["depth", "height", "elevation"], .ALT),
    (["time", "date", "year"], .TIME) ]

/-- `Variable.guessVariableType`: first matching hint wins, else SCALAR. -/
def guessVariableType (name : String) : VarType :=
  match hintSet.find? (fun p => matchColumn name p.1) with
  | some p => p.2
  | none => .SCALAR

/-- One step of the `_calculateVarMinMax` loop: replace a missing cell by
the `noData` sentinel (missing cells do not enter the min/max scan). -/
def replaceMissingCell (c : Cell) : Cell :=
  match c with
  | none => some (.num noDataNum)
  | some v => some v

/-- Running minimum of the `_calculateVarMinMax` loop (`minVal > vals[i]`). -/
def foldMinVal : Value → List Cell → Value
  | mn, [] => mn
  | mn, none :: rest => foldMinVal mn rest
  | mn, some v :: rest => foldMinVal (if jsGt mn v then v else mn) rest

/-- Running maximum of the `_calculateVarMinMax` loop (`maxVal < vals[i]`). -/
def foldMaxVal : Value → List Cell → Value
  | mx, [] => mx
  | mx, none :: rest => foldMaxVal mx rest
  | mx, some v :: rest => foldMaxVal (if jsLt mx v then v else mx) rest

/-- `Variable._calculateVarMinMax`: repairs missing entries in place with
the sentinel, and scans the non-missing entries starting from
`Number.MAX_VALUE` / `-Number.MAX_VALUE`. -/
def calculateVarMinMax (v : Variable) : Variable :=
  { v with
    vals := v.vals.map replaceMissingCell,
    minVal := some (foldMinVal (.num jsMaxValue) v.vals),
    maxVal := some (foldMaxVal (.num (-jsMaxValue)) v.vals) }

/-- Running minimum of `_calculateTimeMinMax` (`JulianDate.greaterThan`). -/
def foldTimeMin : JDate → List JDate → JDate
  | mn, [] => mn
  | mn, v :: rest => foldTimeMin (if mn > v then v else mn) rest

/-- Running maximum of `_calculateTimeMinMax` (`JulianDate.lessThan`). -/
def foldTimeMax : JDate → List JDate → JDate
  | mx, [] => mx
  | mx, v :: rest => foldTimeMax (if mx < v then v else mx) rest

/-- `Variable._calculateTimeMinMax`: starts from `vals[0]` and scans from
index 1; for an empty list both stay `undefined`. -/
def calculateTimeMinMax (ts : List JDate) : TimeVariable :=
  match ts with
  | [] => { vals := [], minVal := none, maxVal := none }
  | v0 :: rest => { vals := ts, minVal := some (foldTimeMin v0 rest), maxVal := some (foldTimeMax v0 rest) }

/-- Split a char list at separator characters (model of the regex split of
`swapDateFormat`, whose separators are the slash and the hyphen). -/
def splitCharsAux (p : Char → Bool) : List Char → List Char → List (List Char)
  | acc, [] => [acc.reverse]
  | acc, c :: rest => if p c then acc.reverse :: splitCharsAux p [] rest else splitCharsAux p (c :: acc) rest

/-- The inner `swapDateFormat` of `processTimeVariable`: if the string has
exactly three `/`- or `-`-separated parts, swap the first two. -/
def swapDateFormat (s : String) : String :=
  let part := (splitCharsAux (fun c => c = '/' || c = '-') [] s.toList).map String.mk
  match part with
  | [p0, p1, p2] => p1 ++ "/" ++ p0 ++ "/" ++ p2
  | _ => s

/-- Strategy 2 of `processTimeVariable`:
`JulianDate.fromDate(new Date(vals[i].toString()))`.  `toString` on an
`undefined` cell throws, so the strategy fails on missing cells. -/
def timeStrategy2 (dparse : String → Option JDate) (c : Cell) : Option JDate :=
  match c with
  | none => none
  | some v => dparse (valueToString v)

/-- Strategy 3 of `processTimeVariable`:
`JulianDate.fromDate(new Date(swapDateFormat(vals[i])))`.  `swapDateFormat`
calls `.split`, which throws on anything but a string. -/
def timeStrategy3 (dparse : String → Option JDate) (c : Cell) : Option JDate :=
  match c with
  | some (.str s) => dparse (swapDateFormat s)
  | _ => none

/-- `Variable.processTimeVariable`.  The three parse strategies are the
try/catch cascade of the source: a strategy throwing at any cell abandons
its partial results (so a strategy succeeds iff it parses every cell,
which is `mapM`).  The external parsers are parameters: `iso` models
`JulianDate.fromIso8601` (throw ↦ `none`), `dparse` models
`new Date` + `JulianDate.fromDate` (invalid date throws ↦ `none`).
On total failure the kind degrades to SCALAR and a diagnostic is logged;
no error is propagated. -/
def processTimeVariable (iso : Cell → Option JDate) (dparse : String → Option JDate)
    (v : Variable) : Variable :=
  if v.varType ≠ some .TIME then v
  else
    match v.vals.mapM iso with
    | some ts => { v with timeVar := some (calculateTimeMinMax ts) }
    | none =>
      match v.vals.mapM (timeStrategy2 dparse) with
      | some ts => { v with timeVar := some (calculateTimeMinMax ts) }
      | none =>
        match v.vals.mapM (timeStrategy3 dparse) with
        | some ts => { v with timeVar := some (calculateTimeMinMax ts) }
        | none => { v with varType := some .SCALAR }

/-- JS object keys are strings: the key under which a cell is stored in
the `enumHash` object of `processEnumVariable`. -/
def enumKey (c : Cell) : String := cellToString c

/-- One iteration of the `processEnumVariable` loop over
`(enumList, enumHash, rewritten vals)`: a cell equal (strictly) to the
`noData` sentinel becomes the string `'undefined'` first, then it is
interned by its string key, and the stored value becomes its index. -/
def processEnumStep (st : List Cell × List (String × Nat) × List Cell) (c : Cell) :
    List Cell × List (String × Nat) × List Cell :=
  let c := if c = some (.num noDataNum) then some (.str "undefined") else c
  match st.2.1.find? (·.1 = enumKey c) with
  | some p => (st.1, st.2.1, st.2.2 ++ [some (.num (p.2 : Int))])
  | none =>
    let n := st.1.length
    (st.1 ++ [c], st.2.1 ++ [(enumKey c, n)], st.2.2 ++ [some (.num (n : Int))])

/-- `Variable.processEnumVariable`: build the symbol table in first-seen
order, rewrite the values to indices, then recompute min/max over the
index values. -/
def processEnumVariable (v : Variable) : Variable :=
  if v.varType ≠ some .ENUM then v
  else
    let r := v.vals.foldl processEnumStep ([], [], [])
    calculateVarMinMax { v with enumList := some r.1, vals := r.2.2 }

/-! ### Dataset (`Dataset.js`, the `varTypeSet` version) -/

/-- The `varTypeSet` slots: first (or preset) column name for each kind. -/
structure VarTypeSet where
  LON : Option String := none
  LAT : Option String := none
  ALT : Option String := none
  TIME : Option String := none
  ENUM : Option String := none
  SCALAR : Option String := none
deriving DecidableEq, Repr

/-- A `Dataset`.  The field `vars` models the source's `this.variables`
(the word `variables` is reserved in Lean): a JS object keyed by trimmed
column name, keys kept in insertion order as JS objects do for string
keys. -/
structure Dataset where
  vars : List (String × Variable) := []
  varTypeSet : VarTypeSet := {}
  varName : Option String := none
  rowCount : Nat := 0
deriving DecidableEq, Repr

/-- Key lookup in the `variables` object. -/
def lookupVar (vars : List (String × Variable)) (k : String) : Option Variable :=
  (vars.find? (·.1 = k)).map (·.2)

/-- JS object assignment `variables[k] = v`: overwrites in place if the key
exists (keeping its original position), appends otherwise. -/
def updateAssoc (vars : List (String × Variable)) (k : String) (v : Variable) :
    List (String × Variable) :=
  if (vars.find? (·.1 = k)).isSome then
    vars.map (fun p => if p.1 = k then (k, v) else p)
  else vars ++ [(k, v)]

/-- `Dataset.getVarList`: the column names in insertion order. -/
def getVarList (d : Dataset) : List String := d.vars.map (·.1)

/-- `Dataset.hasLocationData`: `varTypeSet.LON && varTypeSet.LAT` — both
slots must hold truthy (non-empty) strings. -/
def hasLocationData (d : Dataset) : Bool :=
  match d.varTypeSet.LON, d.varTypeSet.LAT with
  | some a, some b => a ≠ "" && b ≠ ""
  | _, _ => false

/-- Whether `variable.minVal > variable.maxVal` (the Enum trigger); false
when either is still `undefined`. -/
def minGtMax (v : Variable) : Bool :=
  match v.minVal, v.maxVal with
  | some a, some b => jsGt a b
  | _, _ => false

/-- First block of the `_processVariables` body: guess the kind from the
column name when not already set. -/
def guessTypeStep (id : String) (v : Variable) : Variable :=
  if v.varType = none then { v with varType := some (guessVariableType id) } else v

/-- Second block: process a TIME column, degrading the kind to SCALAR when
the time parse left `timeVar` unset. -/
def timeStep (iso : Cell → Option JDate) (dparse : String → Option JDate)
    (v : Variable) : Variable :=
  if v.varType = some .TIME then
    let v2 := processTimeVariable iso dparse v
    if v2.timeVar = none then { v2 with varType := some .SCALAR } else v2
  else v

/-- Third block: compute min/max for every non-TIME column. -/
def minMaxStep (v : Variable) : Variable :=
  if v.varType ≠ some .TIME then calculateVarMinMax v else v

/-- Fourth block: reclassify a SCALAR column with `minVal > maxVal` as
ENUM and intern it. -/
def enumStep (v : Variable) : Variable :=
  if v.varType = some .SCALAR && minGtMax v then
    processEnumVariable { v with varType := some .ENUM }
  else v

/-- The per-variable body of `Dataset._processVariables`: the four blocks
above in source order. -/
def processOneVariable (iso : Cell → Option JDate) (dparse : String → Option JDate)
    (id : String) (v : Variable) : Variable :=
  enumStep (minMaxStep (timeStep iso dparse (guessTypeStep id v)))

/-- First variable (in insertion order) whose final kind is `t`; this is
what the `varIDs` loop of `_processVariables` computes per kind. -/
def firstOfType (vars : List (String × Variable)) (t : VarType) : Option String :=
  (vars.find? (fun p => p.2.varType = some t)).map (·.1)

/-- The processing loop of `_processVariables` over the variables object. -/
def processedVars (iso : Cell → Option JDate) (dparse : String → Option JDate)
    (vars : List (String × Variable)) : List (String × Variable) :=
  vars.map (fun p => (p.1, processOneVariable iso dparse p.1 p.2))

/-- The `varIDs` loop of `_processVariables`: first column of each kind. -/
def baseVTS (vars : List (String × Variable)) : VarTypeSet :=
  { LON := firstOfType vars .LON, LAT := firstOfType vars .LAT,
    ALT := firstOfType vars .ALT, TIME := firstOfType vars .TIME,
    ENUM := firstOfType vars .ENUM, SCALAR := firstOfType vars .SCALAR }

/-- The preset override of `_processVariables`: a truthy `varName` naming
an existing column takes the SCALAR slot, with no kind check. -/
def presetScalarVTS (vn : Option String) (vars : List (String × Variable))
    (vts : VarTypeSet) : VarTypeSet :=
  match vn with
  | some n => if n ≠ "" && (lookupVar vars n).isSome then { vts with SCALAR := some n } else vts
  | none => vts

/-- The ENUM fallback of `_processVariables` for the SCALAR slot. -/
def fallbackScalarVTS (vts : VarTypeSet) : VarTypeSet :=
  if vts.SCALAR = none then { vts with SCALAR := vts.ENUM } else vts

/-- `Dataset._processVariables`.  After processing each column it fills
`varTypeSet`, overrides the SCALAR slot with a preset `varName` when that
names an existing column, falls back to the ENUM slot, and sets `rowCount`
from the SCALAR column.  When no SCALAR/ENUM column exists the source
dereferences `this.variables[undefined]` and throws: modelled as an error. -/
def processVariables (iso : Cell → Option JDate) (dparse : String → Option JDate)
    (d : Dataset) : Except Unit Dataset :=
  let vars := processedVars iso dparse d.vars
  let vts := fallbackScalarVTS (presetScalarVTS d.varName vars (baseVTS vars))
  match vts.SCALAR.bind (lookupVar vars) with
  | some sv => .ok { d with vars := vars, varTypeSet := vts, rowCount := sv.vals.length }
  | none => .error ()

/-- `Dataset.setCurrentVariable`: bail out when the column is missing or
empty; otherwise record `varName` and point the SCALAR slot at it.  No
kind check is performed. -/
def setCurrentVariable (d : Dataset) (varNm : String) : Dataset :=
  match lookupVar d.vars varNm with
  | none => d
  | some v =>
    if v.vals.length = 0 then d
    else
      let d := { d with varName := some varNm }
      if varNm ≠ "" && (lookupVar d.vars varNm).isSome then
        { d with varTypeSet := { d.varTypeSet with SCALAR := some varNm } }
      else d

/-- Build the `variables` object of `Dataset.loadJson`: one `Variable` per
header entry (key = trimmed name), with the column cells of the data rows
(a short row contributes `undefined`). -/
def buildVariables (dataRows : List (List Cell)) : List (Nat × String) →
    List (String × Variable) → List (String × Variable)
  | [], acc => acc
  | (c, nm) :: rest, acc =>
    buildVariables dataRows rest
      (updateAssoc acc nm { name := nm, vals := dataRows.map (fun row => (row.get? c).getD none) })

/-- `Dataset.loadJson`.  An empty table (or empty header) leaves the
dataset untouched.  `columnNames[c].trim()` throws unless the header cell
is a string: modelled as an error.  After `_processVariables`, a truthy
preset `varName` triggers `setCurrentVariable`. -/
def loadJson (iso : Cell → Option JDate) (dparse : String → Option JDate)
    (presetVarName : Option String) (jsonTable : List (List Cell)) : Except Unit Dataset :=
  match jsonTable with
  | [] => .ok { varName := presetVarName }
  | header :: dataRows =>
    if header.length = 0 then .ok { varName := presetVarName }
    else do
      let names ← header.mapM (fun c =>
        match c with
        | some (.str s) => Except.ok (trimStr s)
        | _ => Except.error ())
      let vars := buildVariables dataRows names.enum []
      let d ← processVariables iso dparse { vars := vars, varName := presetVarName }
      match presetVarName with
      | some n => if n ≠ "" then pure (setCurrentVariable d n) else pure d
      | none => pure d

/-- A stored cell used as a JS array index: only a non-negative integer
number indexes into an array; anything else reads `undefined`. -/
def cellNatIndex (c : Cell) : Option Nat :=
  match c with
  | some (.num n) => if n ≥ 0 then some n.toNat else none
  | _ => none

/-- `Dataset.getDataValue`: ENUM columns decode through `enumList`, TIME
columns read the parsed instants (returned as a number here), others read
the raw cell.  Any failed lookup yields `undefined`. -/
def getDataValue (d : Dataset) (varName : String) (idx : Nat) : Cell :=
  match lookupVar d.vars varName with
  | none => none
  | some v =>
    if v.varType = some .ENUM then
      match v.vals.get? idx with
      | some c =>
        match cellNatIndex c with
        | some k => ((v.enumList.getD []).get? k).getD none
        | none => none
      | none => none
    else if v.varType = some .TIME then
      match v.timeVar with
      | some tv => ((tv.vals.get? idx).map (fun t => Value.num t))
      | none => none
    else (v.vals.get? idx).getD none

/-- `Dataset.getDataValues`: the raw stored values of a column. -/
def getDataValues (d : Dataset) (varName : String) : Option (List Cell) :=
  (lookupVar d.vars varName).map (·.vals)

/-! ### Region mapping (`CsvCatalogItem.js`) -/

/-- One entry of the `regionWmsMap` registry.  `code` is the JS object key
(e.g. "STE"). -/
structure RegionDescriptor where
  code : String
  name : String
  regionProp : String
  aliases : List String
  digits : Nat
deriving DecidableEq, Repr

/-- The `regionWmsMap` registry, in declaration order (JS object literals
keep string keys in insertion order; SA1 is commented out in the source). -/
def regionWmsMap : List RegionDescriptor :=
  [ ⟨"STE", "region_map:FID_STE_2011_AUST", "STE_CODE11", ["state", "ste"], 1⟩,
    ⟨"SA4", "region_map:FID_SA4_2011_AUST", "SA4_CODE11", ["sa4"], 3⟩,
    ⟨"SA3", "region_map:FID_SA3_2011_AUST", "SA3_CODE11", ["sa3"], 5⟩,
    ⟨"SA2", "region_map:FID_SA2_2011_AUST", "SA2_MAIN11", ["sa2"], 9⟩,
    ⟨"POA", "region_map:FID_POA_2011_AUST", "POA_CODE", ["poa", "postcode"], 4⟩,
    ⟨"CED", "region_map:FID_CED_2011_AUST", "CED_CODE", ["ced"], 3⟩,
    ⟨"SED", "region_map:FID_SED_2011_AUST", "SED_CODE", ["sed"], 5⟩,
    ⟨"LGA", "region_map:FID_LGA_2011_AUST", "LGA_CODE11", ["lga"], 5⟩,
    ⟨"SSC", "region_map:FID_SCC_2011_AUST", "SSC_CODE", ["ssc", "suburb"], 5⟩,
    ⟨"UN", "region_map:FID_TM_WORLD_BORDERS", "UN", ["un", "country"], 3⟩ ]

/-- `determineRegionVar`: index of the first column whose lower-cased name
starts with one of the aliases (`varName.substring(0, alias.length) ===
alias`); `none` models the return value -1. -/
def determineRegionVar (vars : List String) (aliases : List String) : Option Nat :=
  vars.findIdx? (fun varName => aliases.any (fun a => startsWithStr (toLowerStr varName) a))

/-- The first loop of `determineRegionType`: walk the registry in
declaration order, return the first descriptor having a matching column
together with the matched column index. -/
def columnNameMatch (reg : List RegionDescriptor) (vars : List String) :
    Option (RegionDescriptor × Nat) :=
  match reg with
  | [] => none
  | rd :: rest =>
    match determineRegionVar vars rd.aliases with
    | some i => some (rd, i)
    | none => columnNameMatch rest vars

/-- Model of `id.replace` with the anchored leading-non-digit regex:
drop the leading non-digit characters. -/
def stripLeadingNonDigits (s : String) : String :=
  String.mk (s.toList.dropWhile (fun c => !c.isDigit))

/-- Simplified `parseInt(s, 10)` for the call sites here, where `s` starts
with a digit or is empty: leading digits, `NaN` (`none`) when none. -/
def parseIntJS (s : String) : Option Int :=
  let ds := s.toList.takeWhile Char.isDigit
  if ds.isEmpty then none else some ((digitsToNat ds : Int))

/-- Model of `code.replace` with the global digit regex: remove every
digit character (note: not only a trailing digit run). -/
def removeDigits (s : String) : String :=
  String.mk (s.toList.filter (fun c => !c.isDigit))

/-- Key lookup `regionWmsMap[region]`. -/
def findRegionByCode (reg : List RegionDescriptor) (k : String) : Option RegionDescriptor :=
  reg.find? (·.code = k)

/-- The value-rewrite loop of the string branch of `determineRegionType`:
`new_vals.push(parseInt(dataset.getDataValue('region_id', vals[i]).replace(leading non-digits, ''), 10))`.
The loop indexes `getDataValue` by the stored value `vals[i]` (not by `i`);
when that lookup yields anything but a string, `.replace` throws
(modelled as an error). -/
def rewriteAbsRegionVals (d : Dataset) : Except Unit (List Cell) :=
  match getDataValues d "region_id" with
  | none => .error ()
  | some vs =>
    vs.mapM (fun c => do
      let idx ← match cellNatIndex c with
                | some k => Except.ok k
                | none => Except.error ()
      match getDataValue d "region_id" idx with
      | some (.str t) =>
        pure (match parseIntJS (stripLeadingNonDigits t) with
              | some n => some (.num n)
              | none => some (.nan))
      | _ => Except.error ())

/-- JS `variables[newKey] = variables[oldKey]; delete variables[oldKey]`:
the value appears under the new key (appended when new) and the old key is
removed. -/
def renameVariable (d : Dataset) (oldKey newKey : String) : Dataset :=
  match lookupVar d.vars oldKey with
  | none => d
  | some v =>
    let vars := updateAssoc d.vars newKey v
    { d with vars := vars.filter (fun p => p.1 ≠ oldKey) }

/-- Overwrite the stored values of one column in place
(`dataset.variables[absRegion].vals = new_vals`). -/
def setVariableVals (d : Dataset) (k : String) (nv : List Cell) : Dataset :=
  { d with vars := d.vars.map (fun p => if p.1 = k then (p.1, { p.2 with vals := nv }) else p) }

/-- The result record of `determineRegionType`. -/
structure RegionMatch where
  regionType : String
  regionVar : String
deriving DecidableEq, Repr

/-- `determineRegionType`, generalised over the registry list (the source
iterates the fixed `regionWmsMap` object; `determineRegionType` below
instantiates it).  Column-name matching first; otherwise the `region_id`
fallback: a string sample has its digits removed and the remainder looked
up as a registry key (rewriting the stored values on success); a numeric
sample is matched by digit count of its string form against each
descriptor's `digits`, first declared match winning.  A missing sample
(`undefined.toString()`) throws: modelled as an error. -/
def determineRegionTypeGen (reg : List RegionDescriptor) (d : Dataset) :
    Except Unit (Option RegionMatch × Dataset) :=
  let vars := getVarList d
  match columnNameMatch reg vars with
  | some (rd, idx) => .ok (some ⟨rd.code, vars.getD idx ""⟩, d)
  | none =>
    if !(vars.contains "region_id") then .ok (none, d)
    else
      match getDataValue d "region_id" 0 with
      | some (.str s) =>
        let region := removeDigits s
        match findRegionByCode reg region with
        | none => .ok (none, d)
        | some _ => do
          let nv ← rewriteAbsRegionVals d
          let d2 := setVariableVals d "region_id" nv
          .ok (some ⟨region, region⟩, renameVariable d2 "region_id" region)
      | some v =>
        let digits := (valueToString v).toList.length
        match reg.find? (fun rd => rd.digits = digits) with
        | none => .ok (none, d)
        | some rd => .ok (some ⟨rd.code, rd.code⟩, renameVariable d "region_id" rd.code)
      | none => .error ()

/-- `determineRegionType` over the fixed registry. -/
def determineRegionType (d : Dataset) : Except Unit (Option RegionMatch × Dataset) :=
  determineRegionTypeGen regionWmsMap d

/-- The region-resolution decision of `addRegionMap` (no preset
`style.table`, as when a plain CSV is loaded): nothing to map for an empty
dataset; otherwise `determineRegionType` decides.  Styling, the current
variable choice and the remote identifier fetch of `setRegionVariable`
(after which `_regionMapped` is set) are presentation-side and not
modelled. -/
def addRegionMap (d : Dataset) : Except Unit (Option (RegionMatch × Dataset)) :=
  if d.rowCount = 0 then .ok none
  else do
    let r ← determineRegionType d
    match r with
    | (none, _) => .ok none
    | (some rm, d2) => .ok (some (rm, d2))

/-- Observable outcome of `loadTable` for a parsed dataset. -/
inductive LoadOutcome where
  | direct
  | regionMapped (rm : RegionMatch)
  | loadError
deriving DecidableEq, Repr

/-- The decision of `loadTable`: direct display when the dataset has
location data; otherwise region mapping is attempted and a failure
(including an exception from `determineRegionType`) leaves
`_regionMapped` unset, so a `ModelError` ("Could not load CSV file ...
not able to determine a region mapping column") is raised to the caller. -/
def loadTable (d : Dataset) : LoadOutcome :=
  if hasLocationData d then .direct
  else
    match addRegionMap d with
    | .ok (some (rm, _)) => .regionMapped rm
    | _ => .loadError

/-! ### ABS aggregation (`AbsIttCatalogItem.js`, the `_absDataset` version) -/

mutual
/-- A node of the concept/code tree (`AbsCode`): display name, code value,
active flag and child codes. -/
inductive AbsCode where
  | mk (name : String) (code : String) (isActive : Bool) (items : AbsCodeList)
/-- A list of `AbsCode` children (a separate inductive so that the tree
walks below are structurally recursive and kernel-computable). -/
inductive AbsCodeList where
  | nil
  | cons (c : AbsCode) (rest : AbsCodeList)
end

mutual
/-- One node of the `appendActiveCodes` walk of `updateAbsResults`: an
active code contributes `conceptName + '.' + code` and its children are
skipped (an active parent is a rollup total); an inactive node recurses
into its children. -/
def appendActiveCode (conceptName : String) : AbsCode → List String
  | .mk _ code act items =>
    if act then [conceptName ++ "." ++ code] else appendActiveCodes conceptName items
/-- The `appendActiveCodes` loop over a sibling list, in order. -/
def appendActiveCodes (conceptName : String) : AbsCodeList → List String
  | .nil => []
  | .cons c rest => appendActiveCode conceptName c ++ appendActiveCodes conceptName rest
end

/-- A concept (`AbsConcept`): its name and its top-level codes. -/
structure AbsConcept where
  name : String
  items : AbsCodeList

/-- A CSV row and a parsed CSV result table (`$.csv.toArrays`). -/
abbrev CsvRow := List Cell
abbrev CsvArray := List CsvRow

/-- The state of an `AbsIttCatalogItem` that `updateAbsResults` reads:
the concept tree (`_absDataset.items`), the per-session query cache
(`queryList`, keyed by URL), and the URL ingredients. -/
structure AbsItemState where
  datasetItems : List AbsConcept
  queryList : List (String × CsvArray) := []
  baseUrl : String := ""
  dataSetID : String := ""
  regionType : String := ""

/-- `Array.prototype.join(sep)`. -/
def joinWith (sep : String) : List String → String
  | [] => ""
  | [s] => s
  | s :: rest => s ++ sep ++ joinWith sep rest

/-- `createAnd(filter, regionType)`: prepend the REGIONTYPE term and join
with commas. -/
def createAnd (filter : List String) (regionType : String) : String :=
  joinWith "," (("REGIONTYPE." ++ regionType) :: filter)

/-- The query URL built for one filter combination (`objectToQuery` writes
the parameter object in literal order; URL-encoding is not modelled, the
URLs only serve as cache keys here). -/
def queryUrl (st : AbsItemState) (filter : List String) : String :=
  st.baseUrl ++ "?method=GetGenericData&datasetid=" ++ st.dataSetID ++
    "&and=" ++ createAnd filter st.regionType ++ "&or=REGION&format=csv"

/-- `buildQueryFilters`: depth-first cross product of the per-concept
active-code lists, each combination extending `filterIn` by one code per
concept.  (On an empty concept list the source indexes
`activeCodes[0]` of `undefined` and would throw; modelled as no filters.) -/
def buildQueryFilters : List (List String) → List String → List (List String)
  | [], _ => []
  | [codes], filterIn => codes.map (fun c => filterIn ++ [c])
  | codes :: rest, filterIn =>
    (codes.map (fun c => buildQueryFilters rest (filterIn ++ [c]))).flatten

/-- `getQueryDataIndex` composed with the data access: first cache entry
with the given URL. -/
def getQueryData (ql : List (String × CsvArray)) (url : String) : Option CsvArray :=
  (ql.find? (·.1 = url)).map (·.2)

/-- `indexOf('Value')` on a CSV row: only a string cell equals 'Value'
under `===`; `none` models -1. -/
def indexOfValueCol (row : CsvRow) : Option Nat :=
  row.findIdx? (· = some (.str "Value"))

/-- The inner summation loop of the merge
(`finalCsvArray[n][valDest] += csvArray[n][valOrig]` for n = 1 ..
csvArray.length - 1), walking the data rows of the accumulator and of the
current result in parallel.  Accumulator rows beyond the current result
are left untouched; a missing accumulator row (`finalCsvArray[n]`
undefined) throws; a write past the row end (sparse array write) is not
modelled.  An out-of-range read `csvArray[n][valOrig]` yields `undefined`
and the JS `+=` then produces `NaN`, which `jsAddCell` reproduces. -/
def addValueRows (valDest valOrig : Nat) : CsvArray → CsvArray → Option CsvArray
  | accRows, [] => some accRows
  | [], _ :: _ => none
  | a :: arest, t :: trest =>
    if valDest < a.length then
      let a2 := a.set valDest (jsAddCell ((a.get? valDest).getD none) ((t.get? valOrig).getD none))
      (addValueRows valDest valOrig arest trest).map (fun r => a2 :: r)
    else none

/-- One non-seed iteration of the merge loop: locate the result table in
the cache (a miss would dereference `queryList[-1].data` and throw), find
its own 'Value' column (`valOrig`), and sum it into column `valDest` of
the accumulator.  An empty result table throws at `csvArray[0].indexOf`;
a result without a 'Value' column would write to index -1 (not
modelled). -/
def mergeQueryResult (valDest : Nat) (acc : CsvArray) (t : Option CsvArray) : Option CsvArray :=
  match t with
  | none => none
  | some csvArray =>
    match csvArray with
    | [] => none
    | hdr :: rows =>
      match indexOfValueCol hdr with
      | none => none
      | some valOrig =>
        match acc with
        | [] => none
        | a0 :: arest => (addValueRows valDest valOrig arest rows).map (fun r => a0 :: r)

/-- The merge of `updateAbsResults`: the first result (a row-by-row copy)
seeds `finalCsvArray` and fixes `valDest` as the index of its 'Value'
column; every further result's 'Value' column is summed element-wise into
column `valDest`.  No column is renamed and no column is appended here.
With no queries `finalCsvArray` stays `undefined` and the serialisation
below throws (`none`). -/
def mergeResults : List (Option CsvArray) → Option CsvArray
  | [] => none
  | t0 :: rest =>
    match t0 with
    | none => none
    | some csv0 =>
      match csv0 with
      | [] => none
      | hdr :: rows =>
        match indexOfValueCol hdr with
        | none => none
        | some valDest => rest.foldlM (mergeQueryResult valDest) (hdr :: rows)

/-- The serialisation loop of `updateAbsResults`: cells joined by commas,
rows by newlines, via the JS string conversion of each cell. -/
def serializeCsv (csv : CsvArray) : String :=
  joinWith "\n" (csv.map (fun row => joinWith "," (row.map cellToString)))

/-- First-occurrence string replacement, as `String.prototype.replace`
with a string pattern does. -/
def replaceFirstList (needle rep : List Char) : List Char → List Char
  | [] => []
  | c :: rest =>
    if needle.isPrefixOf (c :: rest) then rep ++ (c :: rest).drop needle.length
    else c :: replaceFirstList needle rep rest

/-- `text.replace(',REGION,', ',' + regionType + ',')` on strings. -/
def replaceFirstStr (s needle rep : String) : String :=
  String.mk (replaceFirstList needle.toList rep.toList s.toList)

/-- Outcome of one `updateAbsResults` pass. -/
inductive AbsUpdateOutcome where
  /-- The invalid-selection branch: `dynamicUpdate('')` and `legendUrl`
  reset, i.e. the displayed data is cleared; the promise resolves
  normally. -/
  | cleared
  /-- The merge completed: the final CSV array and the serialised text
  (with the first `,REGION,` occurrence renamed to the region type)
  handed to `dynamicUpdate`. -/
  | updated (finalCsvArray : CsvArray) (text : String)
  /-- A merge/serialisation step threw (e.g. no queries at all, a cache
  miss or an empty result table). -/
  | mergeFailed
deriving DecidableEq, Repr

/-- Everything observable about one `updateAbsResults` pass. -/
structure AbsUpdateResult where
  /-- Per concept, the collected active codes (walk of the whole tree;
  the source breaks at the first empty concept, which changes nothing
  observable). -/
  activeCodes : List (List String)
  /-- The combination filters built (empty when the pass was cleared). -/
  queryFilters : List (List String)
  /-- The URLs of the current pass, one per combination. -/
  currentQueryList : List String
  /-- The URLs actually fetched: those not already cached.  (Within one
  pass the cache check precedes every asynchronous completion, so a URL
  duplicated inside one pass is fetched each time, as in the source.) -/
  requests : List String
  /-- The cache after the pass; completion order is modelled as query
  order (lookups are by URL, and one URL always carries one table, so no
  observable property here depends on the completion order). -/
  queryListAfter : List (String × CsvArray)
  outcome : AbsUpdateOutcome
deriving DecidableEq, Repr

/-- `updateAbsResults`: walk the tree for active codes; an empty concept
clears the display and issues no requests; otherwise build the
cross-product filters, fetch every uncached URL (`fetch` is the network
oracle), and merge all result tables of the current pass. -/
def updateAbsResults (fetch : String → CsvArray) (st : AbsItemState) : AbsUpdateResult :=
  let activeCodes := st.datasetItems.map (fun c => appendActiveCodes c.name c.items)
  if activeCodes.any (fun l => l.isEmpty) then
    { activeCodes := activeCodes, queryFilters := [], currentQueryList := [],
      requests := [], queryListAfter := st.queryList, outcome := .cleared }
  else
    let queryFilters := buildQueryFilters activeCodes []
    let currentQueryList := queryFilters.map (fun f => queryUrl st f)
    let requests := currentQueryList.filter (fun u => (getQueryData st.queryList u).isNone)
    let queryListAfter := st.queryList ++ requests.map (fun u => (u, fetch u))
    let outcome :=
      match mergeResults (currentQueryList.map (getQueryData queryListAfter)) with
      | some finalCsvArray =>
        .updated finalCsvArray
          (replaceFirstStr (serializeCsv finalCsvArray) (",REGION,") ("," ++ st.regionType ++ ","))
      | none => .mergeFailed
    { activeCodes := activeCodes, queryFilters := queryFilters,
      currentQueryList := currentQueryList, requests := requests,
      queryListAfter := queryListAfter, outcome := outcome }

/-! ### Specification-side helpers (used only to state and prove claims) -/

deriving instance DecidableEq for Except

/-- Whether a cell holds a number. -/
def isNumCell (c : Cell) : Bool :=
  match c with
  | some (.num _) => true
  | _ => false

/-- Whether a cell holds a string. -/
def isStrCell (c : Cell) : Bool :=
  match c with
  | some (.str _) => true
  | _ => false

/-- The numeric values of a column, in order. -/
def numCells (l : List Cell) : List Int :=
  l.filterMap (fun c =>
    match c with
    | some (.num n) => some n
    | _ => none)

/-- The integer in a numeric cell (0 otherwise; the theorems using it
always know the cell is numeric). -/
def cellInt (c : Cell) : Int :=
  match c with
  | some (.num n) => n
  | _ => 0

/-- The sentinel replacement applied by `processEnumVariable` before
interning a cell. -/
def sanitizeCell (c : Cell) : Cell :=
  if c = some (.num noDataNum) then some (.str "undefined") else c

/-- Specification of the symbol table built by `processEnumVariable`:
intern the sanitised cells into `enumL` in first-seen order of their keys. -/
def enumListSpec (enumL : List Cell) : List Cell → List Cell
  | [] => enumL
  | c :: rest =>
    let c2 := sanitizeCell c
    if (enumL.find? (fun e => enumKey e = enumKey c2)).isSome then enumListSpec enumL rest
    else enumListSpec (enumL ++ [c2]) rest

/-- Specification of the rewritten values of `processEnumVariable`: the
index of each sanitised cell's key in the evolving symbol table. -/
def enumValsSpec (enumL : List Cell) : List Cell → List Cell
  | [] => []
  | c :: rest =>
    let c2 := sanitizeCell c
    match enumL.findIdx? (fun e => enumKey e = enumKey c2) with
    | some j => some (.num (j : Int)) :: enumValsSpec enumL rest
    | none => some (.num (enumL.length : Int)) :: enumValsSpec (enumL ++ [c2]) rest

/-- The cell of a CSV data-row block at data row `m`, column `j`
(out-of-range reads give `undefined`). -/
def rowCellAt (rows : CsvArray) (m j : Nat) : Cell :=
  (((rows.get? m).getD []).get? j).getD none

/-- The 'Value' entry of a cached result table at data row `m`:
`undefined` when the table is missing, empty, or has no 'Value' column. -/
def tableValueCell (t : Option CsvArray) (m : Nat) : Cell :=
  match t with
  | some (hdr :: rows) =>
    match indexOfValueCol hdr with
    | some vo => rowCellAt rows m vo
    | none => none
  | _ => none

/-- Alignment assumptions of the claims on one cached result table:
present, a header with a 'Value' column, exactly `L` rectangular data
rows, and numeric 'Value' entries. -/
def tableOk (L : Nat) (t : Option CsvArray) : Bool :=
  match t with
  | some (hdr :: rows) =>
    match indexOfValueCol hdr with
    | some vo =>
      decide (rows.length = L) &&
        rows.all (fun r => decide (r.length = hdr.length) && isNumCell ((r.get? vo).getD none))
    | none => false
  | _ => false

/-- Trimmed header names (valid when every header cell is a string). -/
def trimmedHeader (header : List Cell) : List String :=
  header.map (fun c =>
    match c with
    | some (.str s) => trimStr s
    | _ => "")

/-- The concrete dataset produced by loading header `a,b` with one data
row `1,2` (used by the C10 witness). -/
def exC10loaded : Dataset :=
  { vars := [("a", { name := "a", vals := [some (.num 1)], varType := some .SCALAR,
                     minVal := some (.num 1), maxVal := some (.num 1) }),
             ("b", { name := "b", vals := [some (.num 2)], varType := some .SCALAR,
                     minVal := some (.num 2), maxVal := some (.num 2) })],
    varTypeSet := { SCALAR := some "a" },
    varName := none,
    rowCount := 1 }

/-- The concrete dataset produced by the C7 witness load. -/
def exC7loaded : Dataset :=
  { vars := [("x", { name := "x", vals := [some (.num 1), some (.num 3)], varType := some .SCALAR,
                     minVal := some (.num 1), maxVal := some (.num 3) }),
             ("y", { name := "y", vals := [some (.num 2), some (.num 4)], varType := some .SCALAR,
                     minVal := some (.num 2), maxVal := some (.num 4) })],
    varTypeSet := { SCALAR := some "x" },
    varName := none,
    rowCount := 2 }

/-- Parsers used by the C6 witness: `exIso` models `fromIso8601`
succeeding only on an ISO string, `exDparse` a date parse succeeding only
on the day/month-swapped form. -/
def exIso : Cell → Option JDate := fun c =>
  match c with
  | some (.str "2010-01-02") => some 5
  | _ => none

def exDparse : String → Option JDate := fun s => if s = "03/04/2011" then some 7 else none

/-- The recovery step as the spec words it: strip the LEADING non-digit
characters off the sampled string — i.e. keep reading the letter prefix —
to recover a region-type code ("SA412345" → "SA4" would need the prefix;
the claim words it as the leading non-digit characters).  Declared only to
compare with the source's `removeDigits`, which deletes every digit of
the string instead. -/
def specRecoverCode (s : String) : String :=
  String.mk (s.toList.takeWhile (fun c => !c.isDigit))

/-- The dataset obtained by loading `region_id` strings `STE1X`, `STE2X`
(C4 counterexample input). -/
def exC4ste : Dataset :=
  { vars := [("region_id", { name := "region_id", vals := [some (.num 0), some (.num 1)],
                             varType := some .ENUM, minVal := some (.num 0), maxVal := some (.num 1),
                             enumList := some [some (.str "STE1X"), some (.str "STE2X")] }),
             ("val", { name := "val", vals := [some (.num 1), some (.num 2)], varType := some .SCALAR,
                       minVal := some (.num 1), maxVal := some (.num 2) })],
    varTypeSet := { ENUM := some "region_id", SCALAR := some "val" },
    varName := none,
    rowCount := 2 }

/-- Dataset loaded from `region_id` strings `LGA10`, `LGA20`: after enum
interning the stored values are indices 0, 1 and the raw strings live in
`enumList`. -/
def exC4strs : Dataset :=
  { vars := [("region_id", { name := "region_id", vals := [some (.num 0), some (.num 1)],
                             varType := some .ENUM, minVal := some (.num 0), maxVal := some (.num 1),
                             enumList := some [some (.str "LGA10"), some (.str "LGA20")] }),
             ("val", { name := "val", vals := [some (.num 1), some (.num 2)], varType := some .SCALAR,
                       minVal := some (.num 1), maxVal := some (.num 2) })],
    varTypeSet := { ENUM := some "region_id", SCALAR := some "val" },
    varName := none,
    rowCount := 2 }

/-- Dataset loaded from numeric `region_id` values 123, 456 (three
digits each). -/
def exC4num : Dataset :=
  { vars := [("region_id", { name := "region_id", vals := [some (.num 123), some (.num 456)],
                             varType := some .SCALAR, minVal := some (.num 123), maxVal := some (.num 456) }),
             ("val", { name := "val", vals := [some (.num 1), some (.num 2)], varType := some .SCALAR,
                       minVal := some (.num 1), maxVal := some (.num 2) })],
    varTypeSet := { SCALAR := some "region_id" },
    varName := none,
    rowCount := 2 }

/-- Dataset loaded from numeric `region_id` values 12, 45: two digits,
which no registry descriptor declares. -/
def exC4nodig : Dataset :=
  { vars := [("region_id", { name := "region_id", vals := [some (.num 12), some (.num 45)],
                             varType := some .SCALAR, minVal := some (.num 12), maxVal := some (.num 45) }),
             ("val", { name := "val", vals := [some (.num 1), some (.num 2)], varType := some .SCALAR,
                       minVal := some (.num 1), maxVal := some (.num 2) })],
    varTypeSet := { SCALAR := some "region_id" },
    varName := none,
    rowCount := 2 }

/-- The LGA registry entry. -/
def exLGA : RegionDescriptor := ⟨"LGA", "region_map:FID_LGA_2011_AUST", "LGA_CODE11", ["lga"], 5⟩

/-- The SA4 registry entry (first declared descriptor with `digits = 3`). -/
def exSA4 : RegionDescriptor := ⟨"SA4", "region_map:FID_SA4_2011_AUST", "SA4_CODE11", ["sa4"], 3⟩

/-- An enum column holding the string `a` and one `noData` sentinel cell
(C5 counterexample input). -/
def exC5sent : Variable :=
  { name := "c", vals := [some (.str "a"), some (.num noDataNum)], varType := some .ENUM }

/-- Dataset holding the processed sentinel column. -/
def exC5sentD : Dataset := { vars := [("c", processEnumVariable exC5sent)], rowCount := 2 }

/-- An enum column holding the number 1 and the string `1`, two distinct
raw values with the same JS object key. -/
def exC5mix : Variable :=
  { name := "c", vals := [some (.num 1), some (.str "1")], varType := some .ENUM }

/-- Dataset holding the processed mixed column. -/
def exC5mixD : Dataset := { vars := [("c", processEnumVariable exC5mix)], rowCount := 2 }

/-- An enum column of three strings with a repeat (`a`, `b`, `a`). -/
def exC5v : Variable :=
  { name := "c", vals := [some (.str "a"), some (.str "b"), some (.str "a")],
    varType := some .ENUM }

/-- Dataset holding the processed three-row column. -/
def exC5d : Dataset := { vars := [("c", processEnumVariable exC5v)], rowCount := 3 }

/-- Row-level alignment of the evolving merge accumulator with the data
rows of the first result table: same row count, same row widths, same
cells off the `valDest` column, and the `valDest` cell holding the running
numeric sum `s`. -/
def rowsAligned (vd : Nat) (base rows : CsvArray) (s : Nat → Int) : Prop :=
  rows.length = base.length ∧
  ∀ m b, base.get? m = some b → ∃ r, rows.get? m = some r ∧ r.length = b.length ∧
    (∀ j, j ≠ vd → r.get? j = b.get? j) ∧ r.get? vd = some (some (.num (s m)))

/-- The per-concept active-code lists, as collected at the top of
`updateAbsResults`. -/
def absActiveCodes (st : AbsItemState) : List (List String) :=
  st.datasetItems.map (fun c => appendActiveCodes c.name c.items)

/-- A small aligned ABS result table: header `ind, REGION, Value` and two
data rows for regions 101 and 102 with the given value entries. -/
def exAbsTable (a b : Int) : CsvArray :=
  [[some (.str "ind"), some (.str "REGION"), some (.str "Value")],
   [some (.num 9), some (.num 101), some (.num a)],
   [some (.num 9), some (.num 102), some (.num b)]]

/-- Concept SEX with two active codes. -/
def exAbsTreeA : AbsCodeList :=
  .cons (.mk "Male" "1" true .nil) (.cons (.mk "Female" "2" true .nil) .nil)

/-- Concept YEAR with two active codes. -/
def exAbsTreeB : AbsCodeList :=
  .cons (.mk "2011" "A02" true .nil) (.cons (.mk "2012" "A03" true .nil) .nil)

/-- Two concepts, two active codes each: four combinations. -/
def exAbsState : AbsItemState :=
  { datasetItems := [⟨"SEX", exAbsTreeA⟩, ⟨"YEAR", exAbsTreeB⟩], queryList := [],
    baseUrl := "http://abs.example/api", dataSetID := "CENSUS", regionType := "STE" }

/-- The network oracle for the four combination queries. -/
def exAbsFetch : String → CsvArray := fun u =>
  if u = queryUrl exAbsState ["SEX.1", "YEAR.A02"] then exAbsTable 1 2
  else if u = queryUrl exAbsState ["SEX.1", "YEAR.A03"] then exAbsTable 3 4
  else if u = queryUrl exAbsState ["SEX.2", "YEAR.A02"] then exAbsTable 5 6
  else exAbsTable 7 8

/-- One concept with two active codes: two combination queries. -/
def exC2State : AbsItemState :=
  { datasetItems := [⟨"SEX", exAbsTreeA⟩], queryList := [],
    baseUrl := "http://abs.example/api", dataSetID := "CENSUS", regionType := "STE" }

/-- The network oracle for the two combination queries. -/
def exC2Fetch : String → CsvArray := fun u =>
  if u = queryUrl exC2State ["SEX.1"] then exAbsTable 10 12 else exAbsTable 20 20

/-! ### Helper lemmas -/

theorem jsGt_num (m n : Int) : jsGt (.num m) (.num n) = decide (n < m) := rfl

theorem foldMinVal_num (cells : List Cell) : ∀ m : Int,
    cells.all (fun c => c.isNone || isNumCell c) = true →
    foldMinVal (.num m) cells = .num ((numCells cells).foldl min m) := by
  induction cells with
  | nil => intro m _; rfl
  | cons c rest ih =>
    intro m h
    rw [List.all_cons, Bool.and_eq_true] at h
    obtain ⟨hc, hrest⟩ := h
    match c with
    | none =>
      simp only [foldMinVal]
      exact ih m hrest
    | some (.num n) =>
      simp only [foldMinVal]
      have hmin : (if jsGt (.num m) (.num n) then Value.num n else .num m) = .num (min m n) := by
        rw [jsGt_num]
        by_cases hn : n < m
        · simp [hn, min_eq_right (le_of_lt hn)]
        · simp [hn, min_eq_left (by omega : m ≤ n)]
      rw [hmin]
      have h2 : numCells (some (.num n) :: rest) = n :: numCells rest := rfl
      rw [h2, List.foldl_cons]
      exact ih (min m n) hrest
    | some (.str s) => simp [isNumCell] at hc
    | some .nan => simp [isNumCell] at hc

theorem foldMaxVal_num (cells : List Cell) : ∀ m : Int,
    cells.all (fun c => c.isNone || isNumCell c) = true →
    foldMaxVal (.num m) cells = .num ((numCells cells).foldl max m) := by
  induction cells with
  | nil => intro m _; rfl
  | cons c rest ih =>
    intro m h
    rw [List.all_cons, Bool.and_eq_true] at h
    obtain ⟨hc, hrest⟩ := h
    match c with
    | none =>
      simp only [foldMaxVal]
      exact ih m hrest
    | some (.num n) =>
      simp only [foldMaxVal]
      have hmax : (if jsLt (.num m) (.num n) then Value.num n else .num m) = .num (max m n) := by
        have : jsLt (.num m) (.num n) = decide (m < n) := rfl
        rw [this]
        by_cases hn : m < n
        · simp [hn, max_eq_right (le_of_lt hn)]
        · simp [hn, max_eq_left (by omega : n ≤ m)]
      rw [hmax]
      have h2 : numCells (some (.num n) :: rest) = n :: numCells rest := rfl
      rw [h2, List.foldl_cons]
      exact ih (max m n) hrest
    | some (.str s) => simp [isNumCell] at hc
    | some .nan => simp [isNumCell] at hc

theorem foldl_min_le_init (ns : List Int) : ∀ m : Int, ns.foldl min m ≤ m := by
  induction ns with
  | nil => intro m; simp
  | cons n rest ih =>
    intro m
    rw [List.foldl_cons]
    exact le_trans (ih (min m n)) (min_le_left m n)

theorem foldl_min_le_mem (ns : List Int) : ∀ (m x : Int), x ∈ ns → ns.foldl min m ≤ x := by
  induction ns with
  | nil => intro m x hx; cases hx
  | cons n rest ih =>
    intro m x hx
    rw [List.foldl_cons]
    rcases List.mem_cons.mp hx with h | h
    · subst h
      exact le_trans (foldl_min_le_init rest (min m x)) (min_le_right m x)
    · exact ih (min m n) x h

theorem foldl_max_ge_init (ns : List Int) : ∀ m : Int, m ≤ ns.foldl max m := by
  induction ns with
  | nil => intro m; simp
  | cons n rest ih =>
    intro m
    rw [List.foldl_cons]
    exact le_trans (le_max_left m n) (ih (max m n))

theorem foldl_max_ge_mem (ns : List Int) : ∀ (m x : Int), x ∈ ns → x ≤ ns.foldl max m := by
  induction ns with
  | nil => intro m x hx; cases hx
  | cons n rest ih =>
    intro m x hx
    rw [List.foldl_cons]
    rcases List.mem_cons.mp hx with h | h
    · subst h
      exact le_trans (le_max_right m x) (foldl_max_ge_init rest (max m x))
    · exact ih (max m n) x h

/-! ### C8: min/max invariant of `_calculateVarMinMax` -/

/-- **C8** (counterexample).  The claim states that for an empty column
min and max are undefined.  In the code `_calculateVarMinMax` always
assigns them: an empty column gets `min = Number.MAX_VALUE` and
`max = -Number.MAX_VALUE` (both defined, and `min > max`). -/
theorem calculateVarMinMax_empty_defined_counterexample :
    (calculateVarMinMax {}).minVal = some (.num jsMaxValue) ∧
    (calculateVarMinMax {}).maxVal = some (.num (-jsMaxValue)) ∧
    (calculateVarMinMax {}).minVal ≠ none ∧
    (calculateVarMinMax {}).maxVal ≠ none ∧
    minGtMax (calculateVarMinMax {}) = true := by decide

/-- **C8** (amended).  After `_calculateVarMinMax`, min and max are never
undefined.  For a column whose non-missing values are all numeric:
`min` is the minimum of `Number.MAX_VALUE` and the values, `max` the
maximum of `-Number.MAX_VALUE` and the values, and when at least one
non-missing value exists, `min ≤ max`.  (For a column with none,
`min = Number.MAX_VALUE > max = -Number.MAX_VALUE`, the state used to
detect Enum columns — see the counterexample.) -/
theorem calculateVarMinMax_minmax_spec (v : Variable)
    (hnum : v.vals.all (fun c => c.isNone || isNumCell c) = true) :
    (calculateVarMinMax v).minVal = some (.num ((numCells v.vals).foldl min jsMaxValue)) ∧
    (calculateVarMinMax v).maxVal = some (.num ((numCells v.vals).foldl max (-jsMaxValue))) ∧
    (calculateVarMinMax v).minVal ≠ none ∧
    (calculateVarMinMax v).maxVal ≠ none ∧
    (numCells v.vals ≠ [] →
      (numCells v.vals).foldl min jsMaxValue ≤ (numCells v.vals).foldl max (-jsMaxValue)) := by
  refine ⟨?_, ?_, ?_, ?_, ?_⟩
  · show some (foldMinVal (.num jsMaxValue) v.vals) = _
    rw [foldMinVal_num v.vals jsMaxValue hnum]
  · show some (foldMaxVal (.num (-jsMaxValue)) v.vals) = _
    rw [foldMaxVal_num v.vals (-jsMaxValue) hnum]
  · show some (foldMinVal (.num jsMaxValue) v.vals) ≠ none
    simp
  · show some (foldMaxVal (.num (-jsMaxValue)) v.vals) ≠ none
    simp
  · intro hne
    obtain ⟨x, hx⟩ := List.exists_mem_of_ne_nil _ hne
    exact le_trans (foldl_min_le_mem _ _ _ hx) (foldl_max_ge_mem _ _ _ hx)

/-- Witness for C8 at the column `[3, null, 7]`. -/
theorem calculateVarMinMax_minmax_spec_witness :
    (({ vals := [some (.num 3), none, some (.num 7)] } : Variable).vals.all
        (fun c => c.isNone || isNumCell c) = true) ∧
    ((calculateVarMinMax { vals := [some (.num 3), none, some (.num 7)] }).minVal =
        some (.num ((numCells [some (.num 3), none, some (.num 7)]).foldl min jsMaxValue)) ∧
      (calculateVarMinMax { vals := [some (.num 3), none, some (.num 7)] }).maxVal =
        some (.num ((numCells [some (.num 3), none, some (.num 7)]).foldl max (-jsMaxValue))) ∧
      (calculateVarMinMax { vals := [some (.num 3), none, some (.num 7)] }).minVal ≠ none ∧
      (calculateVarMinMax { vals := [some (.num 3), none, some (.num 7)] }).maxVal ≠ none ∧
      (numCells [some (.num 3), none, some (.num 7)] ≠ [] →
        (numCells [some (.num 3), none, some (.num 7)]).foldl min jsMaxValue ≤
          (numCells [some (.num 3), none, some (.num 7)]).foldl max (-jsMaxValue))) :=
  ⟨by decide, calculateVarMinMax_minmax_spec _ (by decide)⟩

/-! ### C9: invalid selection clears without requests or error -/

/-- **C9** (confirmed).  Whenever some concept's tree walk collects zero
active codes, `updateAbsResults` takes the invalid-selection branch: the
outcome is `cleared` (the code calls `dynamicUpdate('')` and resets
`legendUrl`, i.e. it clears the displayed data and resolves normally —
no rejected promise and no `ModelError` is raised on this path), no
request is issued, and the query cache is untouched. -/
theorem updateAbsResults_zero_active_clears (fetch : String → CsvArray) (st : AbsItemState)
    (h : ∃ c ∈ st.datasetItems, appendActiveCodes c.name c.items = []) :
    (updateAbsResults fetch st).outcome = .cleared ∧
    (updateAbsResults fetch st).requests = [] ∧
    (updateAbsResults fetch st).currentQueryList = [] ∧
    (updateAbsResults fetch st).queryListAfter = st.queryList := by
  obtain ⟨c, hc, he⟩ := h
  have hany : (st.datasetItems.map (fun c => appendActiveCodes c.name c.items)).any
      (fun l => l.isEmpty) = true := by
    rw [List.any_eq_true]
    refine ⟨appendActiveCodes c.name c.items, List.mem_map.mpr ⟨c, hc, rfl⟩, ?_⟩
    rw [he]; rfl
  simp only [updateAbsResults, hany, if_true]
  exact ⟨trivial, trivial, trivial, trivial⟩

/-- Witness for C9: one concept with a single inactive code. -/
theorem updateAbsResults_zero_active_clears_witness :
    (∃ c ∈ [(⟨"A", .cons (.mk "a one" "a1" false .nil) .nil⟩ : AbsConcept)],
      appendActiveCodes c.name c.items = []) ∧
    ((updateAbsResults (fun _ => [])
        { datasetItems := [⟨"A", .cons (.mk "a one" "a1" false .nil) .nil⟩] }).outcome = .cleared ∧
      (updateAbsResults (fun _ => [])
        { datasetItems := [⟨"A", .cons (.mk "a one" "a1" false .nil) .nil⟩] }).requests = [] ∧
      (updateAbsResults (fun _ => [])
        { datasetItems := [⟨"A", .cons (.mk "a one" "a1" false .nil) .nil⟩] }).currentQueryList = [] ∧
      (updateAbsResults (fun _ => [])
        { datasetItems := [⟨"A", .cons (.mk "a one" "a1" false .nil) .nil⟩] }).queryListAfter =
        ({ datasetItems := [⟨"A", .cons (.mk "a one" "a1" false .nil) .nil⟩] } : AbsItemState).queryList) :=
  ⟨⟨_, List.mem_singleton.mpr rfl, by decide⟩,
    updateAbsResults_zero_active_clears _ _ ⟨_, List.mem_singleton.mpr rfl, by decide⟩⟩

/-! ### C3: region resolution by column name -/

theorem findIdx?_some_spec {α : Type} (p : α → Bool) :
    ∀ (l : List α) (k : Nat), l.findIdx? p = some k →
      ∃ x, l.get? k = some x ∧ p x = true ∧
        ∀ j, j < k → ∃ y, l.get? j = some y ∧ p y = false := by
  intro l
  induction l with
  | nil =>
    intro k h
    rw [show ([] : List α).findIdx? p = none from rfl] at h
    cases h
  | cons a as ih =>
    intro k h
    rw [List.findIdx?_cons] at h
    by_cases ha : p a
    · rw [if_pos ha] at h
      cases h
      exact ⟨a, rfl, ha, by intro j hj; exact absurd hj (Nat.not_lt_zero j)⟩
    · rw [if_neg ha, List.findIdx?_succ] at h
      match hk : as.findIdx? p with
      | none => rw [hk] at h; simp at h
      | some k2 =>
        rw [hk, show Option.map (fun i => i + 1) (some k2) = some (k2 + 1) from rfl] at h
        cases h
        obtain ⟨x, hx, hpx, hearlier⟩ := ih k2 hk
        refine ⟨x, by simpa using hx, hpx, ?_⟩
        intro j hj
        match j with
        | 0 => exact ⟨a, rfl, by simpa using ha⟩
        | j + 1 =>
          obtain ⟨y, hy, hpy⟩ := hearlier j (by omega)
          exact ⟨y, by simpa using hy, hpy⟩

theorem findIdx?_none_spec {α : Type} (p : α → Bool) :
    ∀ l : List α, l.findIdx? p = none → ∀ x ∈ l, p x = false := by
  intro l
  induction l with
  | nil => intro _ x hx; cases hx
  | cons a as ih =>
    intro h x hx
    rw [List.findIdx?_cons] at h
    by_cases ha : p a
    · rw [if_pos ha] at h; cases h
    · rw [if_neg ha, List.findIdx?_succ] at h
      rcases List.mem_cons.mp hx with hxa | hxs
      · subst hxa; simpa using ha
      · refine ih ?_ x hxs
        match hk : as.findIdx? p with
        | none => rfl
        | some k2 => rw [hk] at h; simp at h

/-- **C3** (counterexample).  The claim says column names are tested
against the alias lists "using prefix/word-boundary matching in the same
style as Variable's name-hint matching".  `matchColumn` (Variable's hint
matcher) accepts the word-boundary match of column `my_state` against the
STE alias `state`, but `determineRegionVar` accepts prefixes only and
rejects it, so the whole registry fails on that dataset. -/
theorem regionVar_matching_style_counterexample :
    matchColumn "my_state" ["state", "ste"] = true ∧
    determineRegionVar ["my_state"] ["state", "ste"] = none ∧
    (regionWmsMap.head?).map (fun rd => rd.aliases) = some ["state", "ste"] ∧
    columnNameMatch regionWmsMap ["my_state"] = none := by decide

/-- **C3** (amended).  Region resolution by column name is deterministic
and order-sensitive: descriptors are tried in registry declaration order
and the first descriptor having a matching column wins (so when two
descriptors' alias lists both match, the earlier-declared one is
resolved), the matched column being the first whose lower-cased name has
some alias as a *prefix* (word-boundary matches are not accepted — see the
counterexample).  The resolved pair is what `determineRegionType` returns,
with the dataset untouched. -/
theorem columnNameMatch_first_declared_wins (reg1 reg2 : List RegionDescriptor)
    (rd : RegionDescriptor) (vars : List String) (k : Nat)
    (hearlier : ∀ rd2 ∈ reg1, determineRegionVar vars rd2.aliases = none)
    (hmatch : determineRegionVar vars rd.aliases = some k) :
    columnNameMatch (reg1 ++ rd :: reg2) vars = some (rd, k) ∧
    (∃ nm, vars.get? k = some nm ∧
      rd.aliases.any (fun a => startsWithStr (toLowerStr nm) a) = true) ∧
    (∀ j, j < k → ∃ nm, vars.get? j = some nm ∧
      rd.aliases.any (fun a => startsWithStr (toLowerStr nm) a) = false) ∧
    (∀ d : Dataset, getVarList d = vars →
      determineRegionTypeGen (reg1 ++ rd :: reg2) d = .ok (some ⟨rd.code, vars.getD k ""⟩, d)) := by
  have hmain : columnNameMatch (reg1 ++ rd :: reg2) vars = some (rd, k) := by
    induction reg1 with
    | nil =>
      simp only [List.nil_append, columnNameMatch, hmatch]
    | cons r1 rest ih =>
      have h1 : determineRegionVar vars r1.aliases = none := hearlier r1 (by simp)
      simp only [List.cons_append, columnNameMatch, h1]
      exact ih (fun rd2 hrd2 => hearlier rd2 (by simp [hrd2]))
  refine ⟨hmain, ?_, ?_, ?_⟩
  · obtain ⟨x, hx, hpx, _⟩ := findIdx?_some_spec _ vars k hmatch
    exact ⟨x, hx, hpx⟩
  · intro j hj
    obtain ⟨_, _, _, hearly⟩ := findIdx?_some_spec _ vars k hmatch
    obtain ⟨y, hy, hpy⟩ := hearly j hj
    exact ⟨y, hy, hpy⟩
  · intro d hd
    simp only [determineRegionTypeGen, hd, hmain]

/-- Witness for C3: a contrived registry of two descriptors with
overlapping aliases ("co" and "col") both matching the column `column`;
the first-declared one wins. -/
theorem columnNameMatch_first_declared_wins_witness :
    determineRegionVar ["column"] (⟨"AAA", "nA", "pA", ["co"], 2⟩ : RegionDescriptor).aliases = some 0 ∧
    determineRegionVar ["column"] (⟨"BBB", "nB", "pB", ["col"], 3⟩ : RegionDescriptor).aliases = some 0 ∧
    columnNameMatch [⟨"AAA", "nA", "pA", ["co"], 2⟩, ⟨"BBB", "nB", "pB", ["col"], 3⟩] ["column"] =
      some (⟨"AAA", "nA", "pA", ["co"], 2⟩, 0) :=
  ⟨by decide, by decide,
    (columnNameMatch_first_declared_wins [] [⟨"BBB", "nB", "pB", ["col"], 3⟩]
      ⟨"AAA", "nA", "pA", ["co"], 2⟩ ["column"] 0 (by intro rd2 h; cases h) (by decide)).1⟩

/-! ### Helper lemmas on the variables object -/

theorem updateAssoc_keys_nodup (vars : List (String × Variable)) (k : String) (v : Variable)
    (h : (vars.map (·.1)).Nodup) : ((updateAssoc vars k v).map (·.1)).Nodup := by
  unfold updateAssoc
  by_cases hfind : (vars.find? (·.1 = k)).isSome
  · rw [if_pos hfind]
    have hkeys : (vars.map (fun p => if p.1 = k then (k, v) else p)).map (·.1) = vars.map (·.1) := by
      rw [List.map_map]
      apply List.map_congr_left
      intro p _
      by_cases hp : p.1 = k
      · simp [hp]
      · simp [hp]
    rw [hkeys]; exact h
  · rw [if_neg hfind]
    have hk : k ∉ vars.map (·.1) := by
      intro hmem
      obtain ⟨p, hp, hpk⟩ := List.mem_map.mp hmem
      have hnone : vars.find? (·.1 = k) = none := Option.not_isSome_iff_eq_none.mp hfind
      have := List.find?_eq_none.mp hnone p hp
      simp [hpk] at this
    rw [List.map_append]
    exact List.nodup_append.mpr ⟨h, List.nodup_singleton k,
      by intro x hx hxk; rw [List.mem_singleton.mp hxk] at hx; exact hk hx⟩

theorem updateAssoc_not_mem (vars : List (String × Variable)) (k : String) (v : Variable)
    (hk : k ∉ vars.map (·.1)) : updateAssoc vars k v = vars ++ [(k, v)] := by
  unfold updateAssoc
  rw [if_neg]
  intro hsome
  obtain ⟨p, hp⟩ := Option.isSome_iff_exists.mp hsome
  have hmem := List.mem_of_find?_eq_some hp
  have hpk := List.find?_some hp
  simp only [decide_eq_true_eq] at hpk
  exact hk (List.mem_map.mpr ⟨p, hmem, hpk⟩)

theorem lookupVar_eq_of_mem_nodup (vars : List (String × Variable)) (k : String) (v : Variable)
    (hmem : (k, v) ∈ vars) (hnd : (vars.map (·.1)).Nodup) : lookupVar vars k = some v := by
  induction vars with
  | nil => cases hmem
  | cons p rest ih =>
    rcases List.mem_cons.mp hmem with h | h
    · subst h
      simp [lookupVar, List.find?_cons]
    · have hne : p.1 ≠ k := by
        intro he
        rw [List.map_cons] at hnd
        have hk : k ∈ rest.map (·.1) := List.mem_map.mpr ⟨(k, v), h, rfl⟩
        rw [he] at hnd
        exact (List.nodup_cons.mp hnd).1 hk
      have := ih h (by rw [List.map_cons] at hnd; exact (List.nodup_cons.mp hnd).2)
      simp only [lookupVar, List.find?_cons] at this ⊢
      simp [hne] at this ⊢
      exact this

theorem processed_keys (vars : List (String × Variable)) (f : String → Variable → Variable) :
    (vars.map (fun p => (p.1, f p.1 p.2))).map (·.1) = vars.map (·.1) := by
  rw [List.map_map]; rfl

theorem buildVariables_keys_nodup (dataRows : List (List Cell)) :
    ∀ (ps : List (Nat × String)) (acc : List (String × Variable)),
      (acc.map (·.1)).Nodup → ((buildVariables dataRows ps acc).map (·.1)).Nodup := by
  intro ps
  induction ps with
  | nil => intro acc h; exact h
  | cons p rest ih =>
    intro acc h
    exact ih _ (updateAssoc_keys_nodup _ _ _ h)

theorem buildVariables_spec (dataRows : List (List Cell)) :
    ∀ (ps : List (Nat × String)) (acc : List (String × Variable)),
      (ps.map (·.2)).Nodup → (∀ p ∈ ps, p.2 ∉ acc.map (·.1)) →
      buildVariables dataRows ps acc =
        acc ++ ps.map (fun p =>
          (p.2, { name := p.2, vals := dataRows.map (fun row => (row.get? p.1).getD none) })) := by
  intro ps
  induction ps with
  | nil => intro acc _ _; simp [buildVariables]
  | cons p rest ih =>
    intro acc hnd hacc
    obtain ⟨c, nm⟩ := p
    rw [List.map_cons, List.nodup_cons] at hnd
    obtain ⟨hnm, hrest⟩ := hnd
    simp only [buildVariables]
    rw [updateAssoc_not_mem _ _ _ (hacc (c, nm) (by simp))]
    rw [ih _ hrest ?_]
    · rw [List.map_cons, List.append_assoc]
      rfl
    · intro q hq
      rw [List.map_append, List.mem_append]
      rintro (hql | hqr)
      · exact hacc q (by simp [hq]) hql
      · have : q.2 = nm := by simpa using hqr
        exact hnm (this ▸ List.mem_map.mpr ⟨q, hq, rfl⟩)

theorem header_names_mapM (header : List Cell) (hstr : header.all isStrCell = true) :
    (header.mapM (fun c =>
      match c with
      | some (.str s) => Except.ok (trimStr s)
      | _ => Except.error ()) : Except Unit (List String)) = .ok (trimmedHeader header) := by
  induction header with
  | nil => rfl
  | cons c rest ih =>
    rw [List.all_cons, Bool.and_eq_true] at hstr
    obtain ⟨hc, hrest⟩ := hstr
    match c with
    | some (.str s) =>
      rw [List.mapM_cons, ih hrest]
      rfl
    | none => simp [isStrCell] at hc
    | some (.num _) => simp [isStrCell] at hc
    | some .nan => simp [isStrCell] at hc

theorem loadJson_ok_elim (iso : Cell → Option JDate) (dparse : String → Option JDate)
    (header : List Cell) (dataRows : List (List Cell)) (d : Dataset)
    (hh : header.length ≠ 0)
    (hstr : header.all isStrCell = true)
    (h : loadJson iso dparse none (header :: dataRows) = .ok d) :
    processVariables iso dparse
      { vars := buildVariables dataRows (trimmedHeader header).enum [], varName := none } = .ok d := by
  simp only [loadJson] at h
  rw [if_neg hh, header_names_mapM header hstr] at h
  have h2 : ((processVariables iso dparse
      { vars := buildVariables dataRows (trimmedHeader header).enum [], varName := none }) >>=
        fun d0 => pure d0 : Except Unit Dataset) = .ok d := h
  cases hp : processVariables iso dparse
      { vars := buildVariables dataRows (trimmedHeader header).enum [], varName := none } with
  | error e =>
    rw [hp] at h2
    have hfalse : (Except.error e : Except Unit Dataset) = .ok d := h2
    cases hfalse
  | ok d0 =>
    rw [hp] at h2
    have hok : (Except.ok d0 : Except Unit Dataset) = .ok d := h2
    cases hok
    rfl

theorem processVariables_ok_inv (iso : Cell → Option JDate) (dparse : String → Option JDate)
    (d0 d : Dataset) (h : processVariables iso dparse d0 = .ok d) :
    d.vars = processedVars iso dparse d0.vars ∧
    d.varTypeSet = fallbackScalarVTS (presetScalarVTS d0.varName (processedVars iso dparse d0.vars)
      (baseVTS (processedVars iso dparse d0.vars))) ∧
    ∃ sv, d.varTypeSet.SCALAR.bind (lookupVar d.vars) = some sv ∧ d.rowCount = sv.vals.length := by
  simp only [processVariables] at h
  cases hsv : (fallbackScalarVTS (presetScalarVTS d0.varName (processedVars iso dparse d0.vars)
      (baseVTS (processedVars iso dparse d0.vars)))).SCALAR.bind
      (lookupVar (processedVars iso dparse d0.vars)) with
  | none =>
    rw [hsv] at h
    cases h
  | some sv =>
    rw [hsv] at h
    cases h
    exact ⟨rfl, rfl, sv, hsv, rfl⟩

theorem scalar_slot_kind (vars : List (String × Variable)) (nm : String)
    (hnd : (vars.map (·.1)).Nodup) (t : VarType)
    (hf : firstOfType vars t = some nm) :
    ∃ v, lookupVar vars nm = some v ∧ v.varType = some t := by
  unfold firstOfType at hf
  cases hq : vars.find? (fun p => p.2.varType = some t) with
  | none => rw [hq] at hf; cases hf
  | some q =>
    obtain ⟨q1, q2⟩ := q
    rw [hq] at hf
    simp only [Option.map_some'] at hf
    have hq1 : q1 = nm := by simpa using hf
    subst hq1
    have hmem := List.mem_of_find?_eq_some hq
    have htype := List.find?_some hq
    simp only [decide_eq_true_eq] at htype
    exact ⟨q2, lookupVar_eq_of_mem_nodup vars q1 q2 hmem hnd, htype⟩

/-! ### C10: the active-data role invariant -/

/-- **C10** (counterexample).  `setCurrentVariable` performs no kind
check: on a dataset loaded from header `lat,val`, setting the current
variable to `lat` points the active data slot (`varTypeSet.SCALAR`) at
the Latitude column, violating the claimed invariant. -/
theorem setCurrentVariable_kind_unchecked_counterexample :
    (loadJson (fun _ => none) (fun _ => none) none
        [[some (.str "lat"), some (.str "val")], [some (.num 1), some (.num 2)]]).map
      (fun d =>
        ((setCurrentVariable d "lat").varTypeSet.SCALAR,
         (lookupVar (setCurrentVariable d "lat").vars "lat").map (fun v => v.varType)))
      = .ok (some "lat", some (some .LAT)) ∧
    VarType.LAT ≠ VarType.SCALAR ∧ VarType.LAT ≠ VarType.ENUM := by decide

/-- **C10** (amended).  The role assignment computed at load time with no
preset variable name does satisfy the invariant: whenever the SCALAR slot
is set after `loadJson`, it names an existing column whose kind is SCALAR
or ENUM.  (The preset/`setCurrentVariable` paths are unchecked — see the
counterexample.) -/
theorem load_activeData_scalar_or_enum (iso : Cell → Option JDate)
    (dparse : String → Option JDate) (header : List Cell) (dataRows : List (List Cell))
    (d : Dataset) (nm : String)
    (hh : header.length ≠ 0) (hstr : header.all isStrCell = true)
    (h : loadJson iso dparse none (header :: dataRows) = .ok d)
    (hnm : d.varTypeSet.SCALAR = some nm) :
    ∃ v, lookupVar d.vars nm = some v ∧
      (v.varType = some .SCALAR ∨ v.varType = some .ENUM) := by
  have hproc := loadJson_ok_elim iso dparse header dataRows d hh hstr h
  obtain ⟨hvars, hvts, _⟩ := processVariables_ok_inv _ _ _ _ hproc
  have hnd : ((processedVars iso dparse
      (buildVariables dataRows (trimmedHeader header).enum [])).map (·.1)).Nodup := by
    unfold processedVars
    rw [processed_keys]
    exact buildVariables_keys_nodup _ _ [] (by simp)
  rw [hvts] at hnm
  replace hnm : (fallbackScalarVTS (baseVTS (processedVars iso dparse
      (buildVariables dataRows (trimmedHeader header).enum [])))).SCALAR = some nm := hnm
  unfold fallbackScalarVTS at hnm
  by_cases hsc : (baseVTS (processedVars iso dparse
      (buildVariables dataRows (trimmedHeader header).enum []))).SCALAR = none
  · rw [if_pos hsc] at hnm
    have henum : firstOfType (processedVars iso dparse
        (buildVariables dataRows (trimmedHeader header).enum [])) .ENUM = some nm := by
      simpa [baseVTS] using hnm
    obtain ⟨v, hv, ht⟩ := scalar_slot_kind _ nm hnd .ENUM henum
    exact ⟨v, by rw [hvars]; exact hv, Or.inr ht⟩
  · rw [if_neg hsc] at hnm
    have hscal : firstOfType (processedVars iso dparse
        (buildVariables dataRows (trimmedHeader header).enum [])) .SCALAR = some nm := by
      simpa [baseVTS] using hnm
    obtain ⟨v, hv, ht⟩ := scalar_slot_kind _ nm hnd .SCALAR hscal
    exact ⟨v, by rw [hvars]; exact hv, Or.inl ht⟩

/-- Witness for C10 at the loaded table with header `a,b`. -/
theorem load_activeData_scalar_or_enum_witness :
    ([some (Value.str "a"), some (Value.str "b")] : List Cell).length ≠ 0 ∧
    ([some (Value.str "a"), some (Value.str "b")] : List Cell).all isStrCell = true ∧
    loadJson (fun _ => none) (fun _ => none) none
      [[some (.str "a"), some (.str "b")], [some (.num 1), some (.num 2)]] = .ok exC10loaded ∧
    exC10loaded.varTypeSet.SCALAR = some "a" ∧
    ∃ v, lookupVar exC10loaded.vars "a" = some v ∧
      (v.varType = some .SCALAR ∨ v.varType = some .ENUM) :=
  ⟨by decide, by decide, by decide, by decide,
    load_activeData_scalar_or_enum (fun _ => none) (fun _ => none)
      [some (.str "a"), some (.str "b")] [[some (.num 1), some (.num 2)]] exC10loaded "a"
      (by decide) (by decide) (by decide) (by decide)⟩

/-! ### C7: loadJson shape -/

theorem calculateVarMinMax_vals_length (v : Variable) :
    (calculateVarMinMax v).vals.length = v.vals.length := by
  simp [calculateVarMinMax]

theorem processEnumStep_acc_length (st : List Cell × List (String × Nat) × List Cell) (c : Cell) :
    (processEnumStep st c).2.2.length = st.2.2.length + 1 := by
  simp only [processEnumStep]
  cases hf : st.2.1.find? (fun x => decide (x.1 = enumKey (if c = some (Value.num noDataNum)
      then some (Value.str "undefined") else c))) with
  | none => simp
  | some p => simp

theorem enumFold_vals_length (cells : List Cell) :
    ∀ st : List Cell × List (String × Nat) × List Cell,
      ((cells.foldl processEnumStep st).2.2).length = st.2.2.length + cells.length := by
  induction cells with
  | nil => intro st; simp
  | cons c rest ih =>
    intro st
    rw [List.foldl_cons, ih, processEnumStep_acc_length, List.length_cons]
    omega

theorem processEnumVariable_vals_length (v : Variable) :
    (processEnumVariable v).vals.length = v.vals.length := by
  unfold processEnumVariable
  split
  · rfl
  · rw [calculateVarMinMax_vals_length]
    show ((v.vals.foldl processEnumStep ([], [], [])).2.2).length = v.vals.length
    rw [enumFold_vals_length]
    simp

theorem processTimeVariable_vals (iso : Cell → Option JDate) (dparse : String → Option JDate)
    (v : Variable) : (processTimeVariable iso dparse v).vals = v.vals := by
  unfold processTimeVariable
  split
  · rfl
  · cases v.vals.mapM iso
    · cases v.vals.mapM (timeStrategy2 dparse)
      · cases v.vals.mapM (timeStrategy3 dparse) <;> rfl
      · rfl
    · rfl

theorem processOneVariable_vals_length (iso : Cell → Option JDate)
    (dparse : String → Option JDate) (id : String) (v : Variable) :
    (processOneVariable iso dparse id v).vals.length = v.vals.length := by
  unfold processOneVariable
  have h1 : (guessTypeStep id v).vals = v.vals := by
    unfold guessTypeStep; split <;> rfl
  have h2 : ∀ w : Variable, (timeStep iso dparse w).vals = w.vals := by
    intro w
    simp only [timeStep]
    split
    · split
      · exact processTimeVariable_vals _ _ _
      · exact processTimeVariable_vals _ _ _
    · rfl
  have h3 : ∀ w : Variable, (minMaxStep w).vals.length = w.vals.length := by
    intro w
    unfold minMaxStep
    split
    · exact calculateVarMinMax_vals_length w
    · rfl
  have h4 : ∀ w : Variable, (enumStep w).vals.length = w.vals.length := by
    intro w
    unfold enumStep
    split
    · exact processEnumVariable_vals_length _
    · rfl
  rw [h4, h3, h2, h1]

theorem buildVariables_entries (dataRows : List (List Cell)) (names : List String)
    (hnd : names.Nodup) :
    (buildVariables dataRows names.enum []).length = names.length ∧
    ∀ p ∈ buildVariables dataRows names.enum [], p.2.vals.length = dataRows.length := by
  have hspec := buildVariables_spec dataRows names.enum []
    (by rw [List.enum_map_snd]; exact hnd) (by intro p _ hmem; simp at hmem)
  rw [hspec]
  constructor
  · simp [List.enum_length]
  · intro p hp
    simp only [List.nil_append, List.mem_map] at hp
    obtain ⟨q, _, hq⟩ := hp
    rw [← hq]
    simp

/-- **C7** (counterexample).  The claim promises one Variable per header
entry for every rectangular input.  With the duplicate header `a,a`
(2 entries) the variables object collapses to a single Variable, because
JS object assignment overwrites the key. -/
theorem loadJson_duplicate_header_counterexample :
    (loadJson (fun _ => none) (fun _ => none) none
        [[some (.str "a"), some (.str "a")], [some (.num 1), some (.num 2)]]).map
      (fun d => (d.vars.length, d.rowCount)) = .ok (1, 1) ∧
    ([some (Value.str "a"), some (Value.str "a")] : List Cell).length = 2 ∧
    (1 : Nat) ≠ 2 := by decide

/-- **C7** (amended).  For a rectangular input with a non-empty all-string
header whose trimmed names are pairwise distinct, and whose load succeeds
(some column resolves to SCALAR or ENUM; otherwise the source throws),
`loadJson` yields `rowCount = dataRows.length`, exactly one Variable per
header entry, and every Variable's values have length `rowCount`. -/
theorem loadJson_rowCount_variables (iso : Cell → Option JDate)
    (dparse : String → Option JDate) (header : List Cell) (dataRows : List (List Cell))
    (d : Dataset)
    (hh : header.length ≠ 0)
    (hstr : header.all isStrCell = true)
    (hnd : (trimmedHeader header).Nodup)
    (h : loadJson iso dparse none (header :: dataRows) = .ok d) :
    d.rowCount = dataRows.length ∧
    d.vars.length = header.length ∧
    ∀ p ∈ d.vars, p.2.vals.length = dataRows.length := by
  have hproc := loadJson_ok_elim iso dparse header dataRows d hh hstr h
  obtain ⟨hvars, _, sv, hsv, hrc⟩ := processVariables_ok_inv _ _ _ _ hproc
  obtain ⟨hblen, hbvals⟩ := buildVariables_entries dataRows (trimmedHeader header) hnd
  have hlen : d.vars.length = header.length := by
    rw [hvars]
    unfold processedVars
    rw [List.length_map, hblen]
    simp [trimmedHeader]
  have hvals : ∀ p ∈ d.vars, p.2.vals.length = dataRows.length := by
    intro p hp
    rw [hvars] at hp
    unfold processedVars at hp
    rw [List.mem_map] at hp
    obtain ⟨q, hq, hqp⟩ := hp
    rw [← hqp]
    show (processOneVariable iso dparse q.1 q.2).vals.length = dataRows.length
    rw [processOneVariable_vals_length]
    exact hbvals q hq
  refine ⟨?_, hlen, hvals⟩
  rw [hrc]
  cases hscal : d.varTypeSet.SCALAR with
  | none => rw [hscal] at hsv; cases hsv
  | some nm =>
    rw [hscal] at hsv
    have hsv2 : lookupVar d.vars nm = some sv := hsv
    unfold lookupVar at hsv2
    cases hq : d.vars.find? (·.1 = nm) with
    | none => rw [hq] at hsv2; cases hsv2
    | some q =>
      rw [hq] at hsv2
      simp only [Option.map_some'] at hsv2
      cases hsv2
      exact hvals q (List.mem_of_find?_eq_some hq)

/-- Witness for C7 at a 2-column, 2-row table. -/
theorem loadJson_rowCount_variables_witness :
    ([some (Value.str "x"), some (Value.str "y")] : List Cell).length ≠ 0 ∧
    ([some (Value.str "x"), some (Value.str "y")] : List Cell).all isStrCell = true ∧
    (trimmedHeader [some (.str "x"), some (.str "y")]).Nodup ∧
    loadJson (fun _ => none) (fun _ => none) none
      [[some (.str "x"), some (.str "y")],
       [some (.num 1), some (.num 2)], [some (.num 3), some (.num 4)]] = .ok exC7loaded ∧
    (exC7loaded.rowCount = 2 ∧ exC7loaded.vars.length = 2 ∧
      ∀ p ∈ exC7loaded.vars, p.2.vals.length = 2) :=
  ⟨by decide, by decide, by decide, by decide,
    loadJson_rowCount_variables (fun _ => none) (fun _ => none)
      [some (.str "x"), some (.str "y")]
      [[some (.num 1), some (.num 2)], [some (.num 3), some (.num 4)]] exC7loaded
      (by decide) (by decide) (by decide) (by decide)⟩

/-! ### C6: time-parse strategy order and degrade -/

theorem calculateVarMinMax_varType (v : Variable) :
    (calculateVarMinMax v).varType = v.varType := rfl

theorem calculateVarMinMax_timeVar (v : Variable) :
    (calculateVarMinMax v).timeVar = v.timeVar := rfl

theorem processEnumVariable_varType_enum (v : Variable) (h : v.varType = some .ENUM) :
    (processEnumVariable v).varType = some .ENUM := by
  unfold processEnumVariable
  rw [if_neg (by rw [h]; simp)]
  rw [calculateVarMinMax_varType]
  exact h

theorem processEnumVariable_timeVar (v : Variable) :
    (processEnumVariable v).timeVar = v.timeVar := by
  unfold processEnumVariable
  split
  · rfl
  · rw [calculateVarMinMax_timeVar]

/-- **C6** (counterexample).  The claim says a Time-guessed column where
no strategy parses every value ends with kind Scalar.  For the column
named `date` with values `foo, bar` (all strategies failing),
`processTimeVariable` does set the kind to SCALAR, but the subsequent
min/max scan finds `minVal > maxVal` (strings never compare numerically)
and `_processVariables` reclassifies the column as ENUM: the final kind
is ENUM, not SCALAR. -/
theorem time_degrade_not_scalar_counterexample :
    guessVariableType "date" = .TIME ∧
    (processTimeVariable (fun _ => none) (fun _ => none)
        { name := "date", vals := [some (.str "foo"), some (.str "bar")],
          varType := some .TIME }).varType = some .SCALAR ∧
    (processOneVariable (fun _ => none) (fun _ => none) "date"
        { name := "date", vals := [some (.str "foo"), some (.str "bar")] }).varType =
      some .ENUM ∧
    some VarType.ENUM ≠ some VarType.SCALAR := by decide

/-- **C6** (amended).  The three strategies are tried in order and the
first one that parses the entire column wins (a strategy aborts on its
first failing cell, so succeeding means parsing every cell — `mapM`).
When all three fail, no error is propagated: `processTimeVariable`
returns normally with only the kind changed, to SCALAR; in the
full `_processVariables` pipeline the final kind of such a column is
SCALAR or ENUM (the ENUM reclassification may follow — see the
counterexample). -/
theorem processTimeVariable_strategy_order (iso : Cell → Option JDate)
    (dparse : String → Option JDate) (v : Variable) (hT : v.varType = some .TIME) :
    (∀ ts, v.vals.mapM iso = some ts →
      processTimeVariable iso dparse v = { v with timeVar := some (calculateTimeMinMax ts) }) ∧
    (∀ ts, v.vals.mapM iso = none → v.vals.mapM (timeStrategy2 dparse) = some ts →
      processTimeVariable iso dparse v = { v with timeVar := some (calculateTimeMinMax ts) }) ∧
    (∀ ts, v.vals.mapM iso = none → v.vals.mapM (timeStrategy2 dparse) = none →
      v.vals.mapM (timeStrategy3 dparse) = some ts →
      processTimeVariable iso dparse v = { v with timeVar := some (calculateTimeMinMax ts) }) ∧
    (v.vals.mapM iso = none → v.vals.mapM (timeStrategy2 dparse) = none →
      v.vals.mapM (timeStrategy3 dparse) = none →
      processTimeVariable iso dparse v = { v with varType := some .SCALAR }) ∧
    (∀ (id : String) (w : Variable), w.varType = none → w.timeVar = none →
      guessVariableType id = .TIME →
      w.vals.mapM iso = none → w.vals.mapM (timeStrategy2 dparse) = none →
      w.vals.mapM (timeStrategy3 dparse) = none →
      ((processOneVariable iso dparse id w).varType = some .SCALAR ∨
        (processOneVariable iso dparse id w).varType = some .ENUM) ∧
      (processOneVariable iso dparse id w).timeVar = none) := by
  have hne : ¬(v.varType ≠ some VarType.TIME) := by rw [hT]; simp
  refine ⟨?_, ?_, ?_, ?_, ?_⟩
  · intro ts h1
    unfold processTimeVariable
    rw [if_neg hne, h1]
  · intro ts h1 h2
    unfold processTimeVariable
    rw [if_neg hne, h1, h2]
  · intro ts h1 h2 h3
    unfold processTimeVariable
    rw [if_neg hne, h1, h2, h3]
  · intro h1 h2 h3
    unfold processTimeVariable
    rw [if_neg hne, h1, h2, h3]
  · intro id w hw hwt hguess h1 h2 h3
    have hg : guessTypeStep id w = { w with varType := some .TIME } := by
      unfold guessTypeStep
      rw [if_pos hw, hguess]
    have hnet : ¬(({ w with varType := some .TIME } : Variable).varType ≠ some VarType.TIME) := by simp
    have hpt : processTimeVariable iso dparse { w with varType := some .TIME } =
        { w with varType := some .SCALAR } := by
      unfold processTimeVariable
      rw [if_neg hnet]
      rw [show ({ w with varType := some .TIME } : Variable).vals = w.vals from rfl]
      rw [h1, h2, h3]
    have ht : timeStep iso dparse (guessTypeStep id w) = { w with varType := some .SCALAR } := by
      rw [hg]
      simp only [timeStep]
      rw [if_pos trivial, hpt]
      rw [if_pos (show ({ w with varType := some VarType.SCALAR } : Variable).timeVar = none from hwt)]
    have hm : minMaxStep { w with varType := some .SCALAR } =
        calculateVarMinMax { w with varType := some .SCALAR } := by
      unfold minMaxStep
      rw [if_pos (by simp)]
    unfold processOneVariable
    rw [ht, hm]
    unfold enumStep
    split
    · constructor
      · right
        apply processEnumVariable_varType_enum
        rfl
      · rw [processEnumVariable_timeVar]
        rw [show (calculateVarMinMax { w with varType := some VarType.SCALAR }).timeVar = w.timeVar from rfl]
        exact hwt
    · constructor
      · left
        rw [calculateVarMinMax_varType]
      · rw [calculateVarMinMax_timeVar]
        exact hwt

/-- Witness for C6: a column `04-03-2011` that only the third
(day/month-swapped) strategy parses. -/
theorem processTimeVariable_strategy_order_witness :
    ((({ name := "date", vals := [some (.str "04-03-2011")], varType := some .TIME } :
        Variable).varType = some VarType.TIME) ∧
      ([some (Value.str "04-03-2011")] : List Cell).mapM exIso = none ∧
      ([some (Value.str "04-03-2011")] : List Cell).mapM (timeStrategy2 exDparse) = none ∧
      ([some (Value.str "04-03-2011")] : List Cell).mapM (timeStrategy3 exDparse) = some [7]) ∧
    processTimeVariable exIso exDparse
        { name := "date", vals := [some (.str "04-03-2011")], varType := some .TIME } =
      { name := "date", vals := [some (.str "04-03-2011")], varType := some .TIME,
        timeVar := some (calculateTimeMinMax [7]) } :=
  ⟨⟨by decide, by decide, by decide, by decide⟩,
    (processTimeVariable_strategy_order exIso exDparse
      { name := "date", vals := [some (.str "04-03-2011")], varType := some .TIME }
      (by decide)).2.2.1 [7] (by decide) (by decide) (by decide)⟩

/-! ### C4: the `region_id` fallback of `determineRegionType` -/

/-- **C4** (counterexample).  The claim says the string fallback strips
the LEADING non-digit characters of the sampled `region_id` value to
recover a region-type code.  The source instead deletes EVERY digit
(`replace(/[0-9]/g, '')`), keeping trailing letters.  For the sample
`STE1X` the leading-letter prefix `STE` is a registry key, but the code
computes `STEX`, finds nothing, and the load fails. -/
theorem regionType_fallback_strip_counterexample :
    loadJson (fun _ => none) (fun _ => none) none
      [[some (.str "region_id"), some (.str "val")],
       [some (.str "STE1X"), some (.num 1)], [some (.str "STE2X"), some (.num 2)]] = .ok exC4ste ∧
    specRecoverCode "STE1X" = "STE" ∧
    (findRegionByCode regionWmsMap (specRecoverCode "STE1X")).isSome = true ∧
    removeDigits "STE1X" = "STEX" ∧
    findRegionByCode regionWmsMap (removeDigits "STE1X") = none ∧
    getDataValue exC4ste "region_id" 0 = some (.str "STE1X") ∧
    determineRegionType exC4ste = .ok (none, exC4ste) ∧
    loadTable exC4ste = .loadError := by decide

/-- **C4** (amended).  When no column name matches any descriptor's
aliases, `determineRegionType` falls back to a column literally named
`region_id`, sampling row 0: for a string sample the digits are deleted
(everywhere in the string, not only a leading strip) and the remainder
looked up as a registry key — on success the stored values are rewritten
and the column renamed; otherwise the digit count of the sample's string
form is matched against each descriptor's `digits`, first declared match
winning, again renaming the column.  When neither branch matches, the
region match is `none`, and a dataset without location data whose region
match is `none` surfaces a load error (`loadTable = .loadError`). -/
theorem determineRegionType_fallback_spec (d : Dataset)
    (hnc : columnNameMatch regionWmsMap (getVarList d) = none)
    (hrid : (getVarList d).contains "region_id" = true) :
    (∀ s, getDataValue d "region_id" 0 = some (.str s) →
      findRegionByCode regionWmsMap (removeDigits s) = none →
      determineRegionType d = .ok (none, d)) ∧
    (∀ s rd nv, getDataValue d "region_id" 0 = some (.str s) →
      findRegionByCode regionWmsMap (removeDigits s) = some rd →
      rewriteAbsRegionVals d = .ok nv →
      determineRegionType d = .ok (some ⟨removeDigits s, removeDigits s⟩,
        renameVariable (setVariableVals d "region_id" nv) "region_id" (removeDigits s))) ∧
    (∀ v, getDataValue d "region_id" 0 = some v → (∀ s, v ≠ .str s) →
      regionWmsMap.find? (fun rd => rd.digits = (valueToString v).toList.length) = none →
      determineRegionType d = .ok (none, d)) ∧
    (∀ v rd, getDataValue d "region_id" 0 = some v → (∀ s, v ≠ .str s) →
      regionWmsMap.find? (fun rd => rd.digits = (valueToString v).toList.length) = some rd →
      determineRegionType d = .ok (some ⟨rd.code, rd.code⟩, renameVariable d "region_id" rd.code)) ∧
    (hasLocationData d = false → determineRegionType d = .ok (none, d) →
      loadTable d = .loadError) := by
  refine ⟨?_, ?_, ?_, ?_, ?_⟩
  · intro s hs hf
    simp only [determineRegionType, determineRegionTypeGen, hnc, hrid, Bool.not_true,
      Bool.false_eq_true, if_false, hs, hf]
  · intro s rd nv hs hf hrw
    simp only [determineRegionType, determineRegionTypeGen, hnc, hrid, Bool.not_true,
      Bool.false_eq_true, if_false, hs, hf, bind, Except.bind, hrw]
  · intro v hv hns hf
    cases v with
    | str s => exact absurd rfl (hns s)
    | num n =>
      simp only [determineRegionType, determineRegionTypeGen, hnc, hrid, Bool.not_true,
        Bool.false_eq_true, if_false, hv, hf]
    | nan =>
      simp only [determineRegionType, determineRegionTypeGen, hnc, hrid, Bool.not_true,
        Bool.false_eq_true, if_false, hv, hf]
  · intro v rd hv hns hf
    cases v with
    | str s => exact absurd rfl (hns s)
    | num n =>
      simp only [determineRegionType, determineRegionTypeGen, hnc, hrid, Bool.not_true,
        Bool.false_eq_true, if_false, hv, hf]
    | nan =>
      simp only [determineRegionType, determineRegionTypeGen, hnc, hrid, Bool.not_true,
        Bool.false_eq_true, if_false, hv, hf]
  · intro hloc hdet
    simp only [loadTable, addRegionMap, hloc, Bool.false_eq_true, if_false]
    by_cases h0 : d.rowCount = 0
    · simp only [if_pos h0]
    · simp only [if_neg h0, hdet, bind, Except.bind]

/-- Witness for C4: the string branch on `LGA10`/`LGA20`, the digit-count
branch on 123/456, and the no-match failure on 12/45. -/
theorem determineRegionType_fallback_spec_witness :
    (columnNameMatch regionWmsMap (getVarList exC4strs) = none ∧
      (getVarList exC4strs).contains "region_id" = true ∧
      rewriteAbsRegionVals exC4strs = .ok [some (.num 10), some (.num 20)]) ∧
    determineRegionType exC4strs = .ok (some ⟨removeDigits "LGA10", removeDigits "LGA10"⟩,
      renameVariable (setVariableVals exC4strs "region_id" [some (.num 10), some (.num 20)])
        "region_id" (removeDigits "LGA10")) ∧
    determineRegionType exC4num = .ok (some ⟨exSA4.code, exSA4.code⟩,
      renameVariable exC4num "region_id" exSA4.code) ∧
    determineRegionType exC4nodig = .ok (none, exC4nodig) ∧
    loadTable exC4nodig = .loadError :=
  ⟨⟨by decide, by decide, by decide⟩,
   (determineRegionType_fallback_spec exC4strs (by decide) (by decide)).2.1
     "LGA10" exLGA [some (.num 10), some (.num 20)] (by decide) (by decide) (by decide),
   (determineRegionType_fallback_spec exC4num (by decide) (by decide)).2.2.2.1
     (.num 123) exSA4 (by decide) (fun s h => Value.noConfusion h) (by decide),
   (determineRegionType_fallback_spec exC4nodig (by decide) (by decide)).2.2.1
     (.num 12) (by decide) (fun s h => Value.noConfusion h) (by decide),
   (determineRegionType_fallback_spec exC4nodig (by decide) (by decide)).2.2.2.2
     (by decide)
     ((determineRegionType_fallback_spec exC4nodig (by decide) (by decide)).2.2.1
       (.num 12) (by decide) (fun s h => Value.noConfusion h) (by decide))⟩

/-! ### C5: enum interning and decode -/

theorem find?_isSome_eq_findIdx?_isSome {α : Type} (l : List α) (p : α → Bool) :
    (l.find? p).isSome = (l.findIdx? p).isSome := by
  rw [List.findIdx?_isSome]
  by_cases h : ∃ x ∈ l, p x = true
  · rw [(List.find?_isSome).mpr h, List.any_eq_true.mpr h]
  · have h1 : (l.find? p).isSome = false := by
      cases hf : (l.find? p).isSome
      · rfl
      · exact absurd (List.find?_isSome.mp hf) h
    have h2 : l.any p = false := by
      cases ha : l.any p
      · rfl
      · exact absurd (List.any_eq_true.mp ha) h
    rw [h1, h2]

theorem findIdx?_found {α : Type} (l : List α) (p : α → Bool) (j : Nat)
    (h : l.findIdx? p = some j) :
    ∃ a, l.get? j = some a ∧ p a = true ∧ l.find? p = some a := by
  induction l generalizing j with
  | nil => cases h
  | cons x xs ih =>
    rw [List.findIdx?_cons, List.findIdx?_succ] at h
    cases hp : p x with
    | true =>
      rw [if_pos hp] at h
      cases h
      exact ⟨x, rfl, hp, by rw [List.find?_cons_of_pos _ hp]⟩
    | false =>
      rw [if_neg (by rw [hp]; exact Bool.false_ne_true)] at h
      cases hfi : xs.findIdx? p with
      | none => rw [hfi] at h; cases h
      | some j0 =>
        rw [hfi] at h
        cases h
        rcases ih j0 hfi with ⟨a, h1, h2, h3⟩
        exact ⟨a, h1, h2, by rw [List.find?_cons_of_neg _ (by rw [hp]; exact Bool.false_ne_true), h3]⟩

theorem findIdx?_mono_append {α : Type} (l t : List α) (p : α → Bool) (j : Nat)
    (h : l.findIdx? p = some j) : (l ++ t).findIdx? p = some j := by
  rw [List.findIdx?_append, h]
  rfl

theorem find?_mono_append {α : Type} (l t : List α) (p : α → Bool) (a : α)
    (h : l.find? p = some a) : (l ++ t).find? p = some a := by
  rw [List.find?_append, h]
  rfl

theorem findIdx?_append_one {α : Type} (l : List α) (x : α) (p : α → Bool)
    (h : l.findIdx? p = none) :
    (l ++ [x]).findIdx? p = if p x then some l.length else none := by
  rw [List.findIdx?_append, h,
    show List.findIdx? p [x] = if p x = true then some 0 else none from List.findIdx?_cons]
  by_cases hp : p x = true
  · rw [if_pos hp, if_pos hp]
    show some (0 + l.length) = some l.length
    rw [Nat.zero_add]
  · rw [if_neg hp, if_neg hp]
    rfl

theorem find?_append_one_of_none {α : Type} (l : List α) (x : α) (p : α → Bool)
    (h : l.find? p = none) (hx : p x = true) : (l ++ [x]).find? p = some x := by
  rw [List.find?_append, h]
  show List.find? p [x] = some x
  rw [List.find?_cons_of_pos _ hx]

theorem enumListSpec_grows (vals : List Cell) (enumL : List Cell) :
    ∃ t, enumListSpec enumL vals = enumL ++ t := by
  induction vals generalizing enumL with
  | nil => exact ⟨[], (List.append_nil enumL).symm⟩
  | cons c rest ih =>
    simp only [enumListSpec]
    split
    · exact ih enumL
    · rcases ih (enumL ++ [sanitizeCell c]) with ⟨t, ht⟩
      exact ⟨sanitizeCell c :: t, by rw [ht, List.append_assoc]; exact rfl⟩

theorem enumFold_spec (vals : List Cell) :
    ∀ (enumL : List Cell) (hash : List (String × Nat)) (acc : List Cell),
    (∀ k : String, hash.find? (fun q => q.1 = k) =
      (enumL.findIdx? (fun e => enumKey e = k)).map (fun j => (k, j))) →
    (vals.foldl processEnumStep (enumL, hash, acc)).1 = enumListSpec enumL vals ∧
    (vals.foldl processEnumStep (enumL, hash, acc)).2.2 = acc ++ enumValsSpec enumL vals := by
  induction vals with
  | nil =>
    intro enumL hash acc _
    exact ⟨rfl, (List.append_nil acc).symm⟩
  | cons c rest ih =>
    intro enumL hash acc hinv
    rw [List.foldl_cons]
    cases hfi : enumL.findIdx? (fun e => enumKey e = enumKey (sanitizeCell c)) with
    | some j =>
      have hfind : hash.find? (fun q => q.1 = enumKey (sanitizeCell c)) =
          some (enumKey (sanitizeCell c), j) := by
        rw [hinv (enumKey (sanitizeCell c)), hfi]
        rfl
      have hstep : processEnumStep (enumL, hash, acc) c =
          (enumL, hash, acc ++ [some (.num (j : Int))]) := by
        simp only [processEnumStep]
        rw [show (if c = some (Value.num noDataNum) then some (Value.str "undefined") else c) =
          sanitizeCell c from rfl]
        rw [hfind]
      rw [hstep]
      have hsome : (enumL.find? (fun e => enumKey e = enumKey (sanitizeCell c))).isSome = true := by
        rw [find?_isSome_eq_findIdx?_isSome, hfi]
        rfl
      rcases ih enumL hash (acc ++ [some (.num (j : Int))]) hinv with ⟨h1, h2⟩
      constructor
      · rw [h1]
        show enumListSpec enumL rest = enumListSpec enumL (c :: rest)
        simp only [enumListSpec]
        rw [if_pos hsome]
      · rw [h2]
        show (acc ++ [some (Value.num (j : Int))]) ++ enumValsSpec enumL rest =
          acc ++ enumValsSpec enumL (c :: rest)
        simp only [enumValsSpec]
        rw [hfi, List.append_assoc]
        exact rfl
    | none =>
      have hfind : hash.find? (fun q => q.1 = enumKey (sanitizeCell c)) = none := by
        rw [hinv (enumKey (sanitizeCell c)), hfi]
        rfl
      have hstep : processEnumStep (enumL, hash, acc) c =
          (enumL ++ [sanitizeCell c], hash ++ [(enumKey (sanitizeCell c), enumL.length)],
           acc ++ [some (.num (enumL.length : Int))]) := by
        simp only [processEnumStep]
        rw [show (if c = some (Value.num noDataNum) then some (Value.str "undefined") else c) =
          sanitizeCell c from rfl]
        rw [hfind]
      rw [hstep]
      have hnone : (enumL.find? (fun e => enumKey e = enumKey (sanitizeCell c))).isSome = false := by
        rw [find?_isSome_eq_findIdx?_isSome, hfi]
        rfl
      have hinv2 : ∀ k : String,
          (hash ++ [(enumKey (sanitizeCell c), enumL.length)]).find? (fun q => q.1 = k) =
          ((enumL ++ [sanitizeCell c]).findIdx? (fun e => enumKey e = k)).map (fun j => (k, j)) := by
        intro k
        rw [List.find?_append, hinv k, List.findIdx?_append]
        cases hj : enumL.findIdx? (fun e => enumKey e = k) with
        | some j => rfl
        | none =>
          show List.find? (fun q => q.1 = k) [(enumKey (sanitizeCell c), enumL.length)] = _
          rw [show List.findIdx? (fun e => enumKey e = k) [sanitizeCell c] =
            if (fun e => (enumKey e = k : Bool)) (sanitizeCell c) = true then some 0 else none
            from List.findIdx?_cons]
          by_cases hk : enumKey (sanitizeCell c) = k
          · rw [List.find?_cons_of_pos _ (by simp [hk]), if_pos (by simp [hk])]
            show some (enumKey (sanitizeCell c), enumL.length) = some (k, 0 + enumL.length)
            rw [hk, Nat.zero_add]
          · rw [List.find?_cons_of_neg _ (by simp [hk]), if_neg (by simp [hk])]
            rfl
      rcases ih (enumL ++ [sanitizeCell c]) (hash ++ [(enumKey (sanitizeCell c), enumL.length)])
        (acc ++ [some (.num (enumL.length : Int))]) hinv2 with ⟨h1, h2⟩
      constructor
      · rw [h1]
        show enumListSpec (enumL ++ [sanitizeCell c]) rest = enumListSpec enumL (c :: rest)
        simp only [enumListSpec]
        rw [if_neg (by rw [hnone]; exact Bool.false_ne_true)]
      · rw [h2]
        show (acc ++ [some (Value.num (enumL.length : Int))]) ++
            enumValsSpec (enumL ++ [sanitizeCell c]) rest =
          acc ++ enumValsSpec enumL (c :: rest)
        simp only [enumValsSpec]
        rw [hfi, List.append_assoc]
        exact rfl

theorem enumValsSpec_get (vals : List Cell) :
    ∀ (enumL : List Cell) (i : Nat) (c : Cell), vals.get? i = some c →
    ∃ j : Nat, (enumValsSpec enumL vals).get? i = some (some (.num (j : Int))) ∧
      (enumListSpec enumL vals).findIdx? (fun e => enumKey e = enumKey (sanitizeCell c)) = some j := by
  induction vals with
  | nil =>
    intro enumL i c h
    cases h
  | cons c0 rest ih =>
    intro enumL i c h
    cases i with
    | zero =>
      rw [List.get?_cons_zero] at h
      injection h with h
      subst h
      cases hfi : enumL.findIdx? (fun e => enumKey e = enumKey (sanitizeCell c0)) with
      | some j =>
        have hsome : (enumL.find? (fun e => enumKey e = enumKey (sanitizeCell c0))).isSome = true := by
          rw [find?_isSome_eq_findIdx?_isSome, hfi]
          rfl
        refine ⟨j, ?_, ?_⟩
        · simp only [enumValsSpec]
          rw [hfi, List.get?_cons_zero]
        · simp only [enumListSpec]
          rw [if_pos hsome]
          rcases enumListSpec_grows rest enumL with ⟨t, ht⟩
          rw [ht]
          exact findIdx?_mono_append _ _ _ _ hfi
      | none =>
        have hnone : (enumL.find? (fun e => enumKey e = enumKey (sanitizeCell c0))).isSome = false := by
          rw [find?_isSome_eq_findIdx?_isSome, hfi]
          rfl
        refine ⟨enumL.length, ?_, ?_⟩
        · simp only [enumValsSpec]
          rw [hfi, List.get?_cons_zero]
        · simp only [enumListSpec]
          rw [if_neg (by rw [hnone]; exact Bool.false_ne_true)]
          rcases enumListSpec_grows rest (enumL ++ [sanitizeCell c0]) with ⟨t, ht⟩
          rw [ht]
          refine findIdx?_mono_append _ _ _ _ ?_
          rw [findIdx?_append_one _ _ _ hfi]
          rw [if_pos (by simp)]
    | succ n =>
      rw [List.get?_cons_succ] at h
      cases hfi : enumL.findIdx? (fun e => enumKey e = enumKey (sanitizeCell c0)) with
      | some j0 =>
        have hsome : (enumL.find? (fun e => enumKey e = enumKey (sanitizeCell c0))).isSome = true := by
          rw [find?_isSome_eq_findIdx?_isSome, hfi]
          rfl
        rcases ih enumL n c h with ⟨j, hv, hl⟩
        refine ⟨j, ?_, ?_⟩
        · simp only [enumValsSpec]
          rw [hfi, List.get?_cons_succ]
          exact hv
        · simp only [enumListSpec]
          rw [if_pos hsome]
          exact hl
      | none =>
        have hnone : (enumL.find? (fun e => enumKey e = enumKey (sanitizeCell c0))).isSome = false := by
          rw [find?_isSome_eq_findIdx?_isSome, hfi]
          rfl
        rcases ih (enumL ++ [sanitizeCell c0]) n c h with ⟨j, hv, hl⟩
        refine ⟨j, ?_, ?_⟩
        · simp only [enumValsSpec]
          rw [hfi, List.get?_cons_succ]
          exact hv
        · simp only [enumListSpec]
          rw [if_neg (by rw [hnone]; exact Bool.false_ne_true)]
          exact hl

theorem enumListSpec_keys_nodup (vals : List Cell) :
    ∀ enumL : List Cell, (enumL.map enumKey).Nodup →
      ((enumListSpec enumL vals).map enumKey).Nodup := by
  induction vals with
  | nil =>
    intro enumL h
    exact h
  | cons c rest ih =>
    intro enumL h
    simp only [enumListSpec]
    split
    · exact ih enumL h
    · rename_i hns
      apply ih
      have hno : ∀ e ∈ enumL, enumKey e ≠ enumKey (sanitizeCell c) := by
        intro e he heq
        exact hns ((List.find?_isSome).mpr ⟨e, he, by simp [heq]⟩)
      rw [List.map_append]
      refine List.Nodup.append h (List.nodup_singleton _) ?_
      intro a ha hb
      rw [List.map_singleton, List.mem_singleton] at hb
      subst hb
      rcases List.mem_map.mp ha with ⟨e, he, hk⟩
      exact hno e he hk

theorem enumListSpec_find_nodup (vals : List Cell) :
    ∀ enumL : List Cell,
    (vals.map (fun x => enumKey (sanitizeCell x))).Nodup →
    (∀ x ∈ vals, ∀ e ∈ enumL, enumKey e ≠ enumKey (sanitizeCell x)) →
    ∀ c ∈ vals, (enumListSpec enumL vals).find? (fun e => enumKey e = enumKey (sanitizeCell c)) =
      some (sanitizeCell c) := by
  induction vals with
  | nil =>
    intro _ _ _ c hc
    cases hc
  | cons c0 rest ih =>
    intro enumL hnd hdisj c hc
    have hf0 : enumL.find? (fun e => enumKey e = enumKey (sanitizeCell c0)) = none := by
      cases hf : enumL.find? (fun e => enumKey e = enumKey (sanitizeCell c0)) with
      | none => rfl
      | some e =>
        have hmem := List.mem_of_find?_eq_some hf
        have hpe := List.find?_some hf
        exact absurd (of_decide_eq_true hpe) (hdisj c0 (List.mem_cons_self _ _) e hmem)
    have hnone : (enumL.find? (fun e => enumKey e = enumKey (sanitizeCell c0))).isSome = false := by
      rw [hf0]
      rfl
    have hL : enumListSpec enumL (c0 :: rest) = enumListSpec (enumL ++ [sanitizeCell c0]) rest := by
      simp only [enumListSpec]
      rw [if_neg (by rw [hnone]; exact Bool.false_ne_true)]
    rw [hL]
    rw [List.map_cons, List.nodup_cons] at hnd
    rcases List.mem_cons.mp hc with hceq | hcmem
    · subst hceq
      rcases enumListSpec_grows rest (enumL ++ [sanitizeCell c]) with ⟨t, ht⟩
      rw [ht]
      exact find?_mono_append _ _ _ _ (find?_append_one_of_none _ _ _ hf0 (by simp))
    · refine ih (enumL ++ [sanitizeCell c0]) hnd.2 ?_ c hcmem
      intro x hx e he
      rcases List.mem_append.mp he with heL | heC
      · exact hdisj x (List.mem_cons_of_mem _ hx) e heL
      · rw [List.mem_singleton] at heC
        subst heC
        intro hkey
        exact hnd.1 (by rw [hkey]; exact List.mem_map_of_mem _ hx)

theorem enumValsSpec_replaceMissing (vals : List Cell) :
    ∀ enumL, (enumValsSpec enumL vals).map replaceMissingCell = enumValsSpec enumL vals := by
  induction vals with
  | nil =>
    intro enumL
    rfl
  | cons c rest ih =>
    intro enumL
    simp only [enumValsSpec]
    cases hfi : enumL.findIdx? (fun e => enumKey e = enumKey (sanitizeCell c)) with
    | some j =>
      rw [List.map_cons, ih enumL]
      rfl
    | none =>
      rw [List.map_cons, ih (enumL ++ [sanitizeCell c])]
      rfl

/-- **C5** (counterexample).  Decoding does not always reproduce the raw
cell: a cell holding the `noData` sentinel is replaced by the string
`undefined` before interning, so it decodes to `'undefined'`; and the
intern keys are the stringified values, so the number 1 and the string
`'1'` collapse to one symbol — `enumList` does not contain each distinct
raw value, and row 1 of the mixed column decodes to the number 1, not to
the raw string `'1'`. -/
theorem processEnumVariable_decode_counterexample :
    (processEnumVariable exC5sent).enumList =
      some [some (.str "a"), some (.str "undefined")] ∧
    getDataValue exC5sentD "c" 1 = some (.str "undefined") ∧
    exC5sent.vals.get? 1 = some (some (.num noDataNum)) ∧
    (some (.str "undefined") : Cell) ≠ some (.num noDataNum) ∧
    (processEnumVariable exC5mix).enumList = some [some (.num 1)] ∧
    (some (.str "1") : Cell) ∉ [(some (.num 1) : Cell)] ∧
    exC5mix.vals.get? 1 = some (some (.str "1")) ∧
    getDataValue exC5mixD "c" 1 = some (.num 1) ∧
    (some (.num 1) : Cell) ≠ some (.str "1") := by decide

/-- **C5** (amended).  `processEnumVariable` interns the SANITISED cells
(`noData` sentinel replaced by `'undefined'`) keyed by their stringified
form: `enumList` holds, per distinct string key, the first-seen sanitised
cell, in first-seen order (`enumListSpec`), the keys are pairwise
distinct, and the stored values become symbol-table indices
(`enumValsSpec`).  Decoding row `i` through `getDataValue` returns the
FIRST-SEEN cell whose key equals the key of the sanitised raw cell; only
when the sanitised keys of the column are pairwise distinct does decoding
reproduce the sanitised raw cell itself. -/
theorem processEnumVariable_firstSeen_decode (v : Variable) (hv : v.varType = some .ENUM)
    (d : Dataset) (nm : String) (hlk : lookupVar d.vars nm = some (processEnumVariable v)) :
    (processEnumVariable v).enumList = some (enumListSpec [] v.vals) ∧
    (processEnumVariable v).vals = enumValsSpec [] v.vals ∧
    ((enumListSpec [] v.vals).map enumKey).Nodup ∧
    (∀ i c, v.vals.get? i = some c →
      getDataValue d nm i =
        ((enumListSpec [] v.vals).find? (fun e => enumKey e = enumKey (sanitizeCell c))).getD none) ∧
    ((v.vals.map (fun x => enumKey (sanitizeCell x))).Nodup →
      ∀ i c, v.vals.get? i = some c → getDataValue d nm i = sanitizeCell c) := by
  have hne : ¬(v.varType ≠ some VarType.ENUM) := by
    rw [hv]
    simp
  have hfold := enumFold_spec v.vals [] [] [] (fun _ => rfl)
  have hE : (processEnumVariable v).enumList = some (enumListSpec [] v.vals) := by
    simp only [processEnumVariable]
    rw [if_neg hne]
    show some (v.vals.foldl processEnumStep ([], [], [])).1 = some (enumListSpec [] v.vals)
    rw [hfold.1]
  have hV : (processEnumVariable v).vals = enumValsSpec [] v.vals := by
    simp only [processEnumVariable]
    rw [if_neg hne]
    show ((v.vals.foldl processEnumStep ([], [], [])).2.2).map replaceMissingCell =
      enumValsSpec [] v.vals
    rw [hfold.2]
    exact enumValsSpec_replaceMissing v.vals []
  have hvt : (processEnumVariable v).varType = some .ENUM := by
    simp only [processEnumVariable]
    rw [if_neg hne]
    exact hv
  have hdec : ∀ i c, v.vals.get? i = some c →
      getDataValue d nm i =
        ((enumListSpec [] v.vals).find? (fun e => enumKey e = enumKey (sanitizeCell c))).getD none := by
    intro i c hget
    rcases enumValsSpec_get v.vals [] i c hget with ⟨j, hvj, hlj⟩
    rcases findIdx?_found _ _ _ hlj with ⟨a, hga, hpa, hfa⟩
    simp only [getDataValue, hlk]
    rw [if_pos hvt, hV, hvj]
    have hci : cellNatIndex (some (.num (j : Int))) = some j := by
      simp [cellNatIndex, Int.toNat_natCast]
    show (match cellNatIndex (some (.num (j : Int))) with
          | some k => (((processEnumVariable v).enumList.getD []).get? k).getD none
          | none => none) =
      ((enumListSpec [] v.vals).find? (fun e => enumKey e = enumKey (sanitizeCell c))).getD none
    rw [hci]
    show (((processEnumVariable v).enumList.getD []).get? j).getD none = _
    rw [hE]
    show ((enumListSpec [] v.vals).get? j).getD none = _
    rw [hga, hfa]
  refine ⟨hE, hV, enumListSpec_keys_nodup v.vals [] List.nodup_nil, hdec, ?_⟩
  intro hnd i c hget
  rw [hdec i c hget]
  rw [enumListSpec_find_nodup v.vals [] hnd
    (fun x _ e he => absurd he (List.not_mem_nil e)) c (List.get?_mem hget)]
  rfl

/-- Witness for C5: the repeat row 2 decodes back to the first-seen `a`. -/
theorem processEnumVariable_firstSeen_decode_witness :
    lookupVar exC5d.vars "c" = some (processEnumVariable exC5v) ∧
    (processEnumVariable exC5v).enumList = some (enumListSpec [] exC5v.vals) ∧
    (enumListSpec [] exC5v.vals = [some (.str "a"), some (.str "b")]) ∧
    getDataValue exC5d "c" 2 =
      ((enumListSpec [] exC5v.vals).find?
        (fun e => enumKey e = enumKey (sanitizeCell (some (.str "a"))))).getD none ∧
    getDataValue exC5d "c" 2 = some (.str "a") :=
  ⟨by decide,
   (processEnumVariable_firstSeen_decode exC5v (by decide) exC5d "c" (by decide)).1,
   by decide,
   (processEnumVariable_firstSeen_decode exC5v (by decide) exC5d "c" (by decide)).2.2.2.1
     2 (some (.str "a")) (by decide),
   by decide⟩

/-! ### C1 and C2: the ABS cross product and merge -/

theorem get?_some_lt {α : Type} (l : List α) (n : Nat) (a : α) (h : l.get? n = some a) :
    n < l.length := by
  rcases (List.get?_eq_some).mp h with ⟨hlt, _⟩
  exact hlt

theorem isNumCell_exists (c : Cell) (h : isNumCell c = true) :
    c = some (.num (cellInt c)) := by
  cases c with
  | none => cases h
  | some v =>
    cases v with
    | num n => rfl
    | str s => cases h
    | nan => cases h

theorem tableOk_elim (L : Nat) (t : Option CsvArray) (h : tableOk L t = true) :
    ∃ hdr rows vd, t = some (hdr :: rows) ∧ indexOfValueCol hdr = some vd ∧
      rows.length = L ∧
      ∀ r ∈ rows, r.length = hdr.length ∧ isNumCell ((r.get? vd).getD none) = true := by
  cases t with
  | none => cases h
  | some csv =>
    cases csv with
    | nil => cases h
    | cons hdr rows =>
      simp only [tableOk] at h
      cases hvo : indexOfValueCol hdr with
      | none => rw [hvo] at h; cases h
      | some vd =>
        rw [hvo] at h
        rw [Bool.and_eq_true] at h
        rcases h with ⟨hlen, hall⟩
        refine ⟨hdr, rows, vd, rfl, hvo, of_decide_eq_true hlen, ?_⟩
        intro r hr
        have hrr := (List.all_eq_true).mp hall r hr
        rw [Bool.and_eq_true] at hrr
        rcases hrr with ⟨h1, h2⟩
        exact ⟨of_decide_eq_true h1, h2⟩

theorem buildQueryFilters_length (cls : List (List String)) :
    ∀ pre, cls ≠ [] → (buildQueryFilters cls pre).length = (cls.map List.length).prod := by
  induction cls with
  | nil =>
    intro pre h
    exact absurd rfl h
  | cons codes rest ih =>
    intro pre _
    cases rest with
    | nil =>
      show (codes.map (fun c => pre ++ [c])).length = ([codes].map List.length).prod
      rw [List.length_map]
      show codes.length = codes.length * 1
      rw [Nat.mul_one]
    | cons c2 rest2 =>
      show ((codes.map (fun c => buildQueryFilters (c2 :: rest2) (pre ++ [c]))).flatten).length = _
      rw [List.length_flatten, List.map_map]
      have hmc : (codes.map (List.length ∘ fun c => buildQueryFilters (c2 :: rest2) (pre ++ [c]))) =
          codes.map (fun _ => ((c2 :: rest2).map List.length).prod) := by
        apply List.map_congr_left
        intro c _
        exact ih (pre ++ [c]) (by simp)
      rw [hmc, List.map_const', List.sum_replicate, smul_eq_mul]
      simp [List.prod_cons]

theorem buildQueryFilters_mem (cls : List (List String)) :
    ∀ pre f, cls ≠ [] →
    (f ∈ buildQueryFilters cls pre ↔
      ∃ g, List.Forall₂ (fun c codes => c ∈ codes) g cls ∧ f = pre ++ g) := by
  induction cls with
  | nil =>
    intro pre f h
    exact absurd rfl h
  | cons codes rest ih =>
    intro pre f _
    cases rest with
    | nil =>
      show f ∈ codes.map (fun c => pre ++ [c]) ↔ _
      rw [List.mem_map]
      constructor
      · rintro ⟨c, hc, rfl⟩
        exact ⟨[c], List.Forall₂.cons hc List.Forall₂.nil, rfl⟩
      · rintro ⟨g, hg, rfl⟩
        cases g with
        | nil => cases hg
        | cons c g2 =>
          rw [List.forall₂_cons] at hg
          rcases hg with ⟨hc, hg2⟩
          cases hg2
          exact ⟨c, hc, rfl⟩
    | cons c2 rest2 =>
      show f ∈ (codes.map (fun c => buildQueryFilters (c2 :: rest2) (pre ++ [c]))).flatten ↔ _
      rw [List.mem_flatten]
      constructor
      · rintro ⟨l, hl, hfl⟩
        rcases List.mem_map.mp hl with ⟨c, hc, rfl⟩
        rcases (ih (pre ++ [c]) f (by simp)).mp hfl with ⟨g, hg, rfl⟩
        exact ⟨c :: g, List.Forall₂.cons hc hg, by rw [List.append_assoc]; rfl⟩
      · rintro ⟨g, hg, rfl⟩
        cases g with
        | nil => cases hg
        | cons c g2 =>
          rw [List.forall₂_cons] at hg
          rcases hg with ⟨hc, hg2⟩
          refine ⟨buildQueryFilters (c2 :: rest2) (pre ++ [c]), List.mem_map_of_mem _ hc, ?_⟩
          rw [ih (pre ++ [c]) _ (by simp)]
          exact ⟨g2, hg2, by rw [List.append_assoc]; exact rfl⟩

theorem addValueRows_spec (vd vo : Nat) (acc : CsvArray) :
    ∀ t : CsvArray, acc.length = t.length →
    (∀ a ∈ acc, vd < a.length) →
    ∃ r, addValueRows vd vo acc t = some r ∧ r.length = acc.length ∧
      ∀ m a, acc.get? m = some a →
        ∃ a2, r.get? m = some a2 ∧ a2.length = a.length ∧
          (∀ j, j ≠ vd → a2.get? j = a.get? j) ∧
          a2.get? vd = some (jsAddCell ((a.get? vd).getD none)
            ((((t.get? m).getD []).get? vo).getD none)) := by
  induction acc with
  | nil =>
    intro t hlen _
    cases t with
    | nil => exact ⟨[], rfl, rfl, fun m a h => by cases h⟩
    | cons b ts => cases hlen
  | cons a arest ih =>
    intro t hlen hvd
    cases t with
    | nil => cases hlen
    | cons b trest =>
      have hva : vd < a.length := hvd a (List.mem_cons_self _ _)
      rcases ih trest
        (by rw [List.length_cons, List.length_cons] at hlen; omega)
        (fun x hx => hvd x (List.mem_cons_of_mem _ hx)) with ⟨r, hr, hrlen, hprop⟩
      refine ⟨a.set vd (jsAddCell ((a.get? vd).getD none) ((b.get? vo).getD none)) :: r,
        ?_, ?_, ?_⟩
      · simp only [addValueRows]
        rw [if_pos hva, hr]
        rfl
      · rw [List.length_cons, List.length_cons, hrlen]
      · intro m x hx
        cases m with
        | zero =>
          rw [List.get?_cons_zero] at hx
          injection hx with hx
          subst hx
          refine ⟨_, List.get?_cons_zero, List.length_set _ _ _, ?_, ?_⟩
          · intro j hj
            rw [List.get?_eq_getElem?, List.getElem?_set_ne (fun he => hj he.symm),
              ← List.get?_eq_getElem?]
          · rw [List.get?_eq_getElem?, List.getElem?_set]
            rw [if_pos rfl, if_pos hva]
            rfl
        | succ n =>
          rw [List.get?_cons_succ] at hx
          rcases hprop n x hx with ⟨a2, h1, h2, h3, h4⟩
          refine ⟨a2, by rw [List.get?_cons_succ]; exact h1, h2, h3, ?_⟩
          rw [List.get?_cons_succ]
          exact h4

theorem rowsAligned_congr (vd : Nat) (base rows : CsvArray) (s1 s2 : Nat → Int)
    (h : ∀ m, s1 m = s2 m) (ha : rowsAligned vd base rows s1) :
    rowsAligned vd base rows s2 := by
  refine ⟨ha.1, ?_⟩
  intro m b hb
  rcases ha.2 m b hb with ⟨r, h1, h2, h3, h4⟩
  exact ⟨r, h1, h2, h3, by rw [h4, h m]⟩

theorem mergeQueryResult_step (vd : Nat) (hdr0 : CsvRow) (base accRows : CsvArray)
    (s : Nat → Int) (t : Option CsvArray) (L : Nat)
    (hbaseL : base.length = L)
    (hwide : ∀ b ∈ base, vd < b.length)
    (halign : rowsAligned vd base accRows s)
    (htab : tableOk L t = true) :
    ∃ accRows2, mergeQueryResult vd (hdr0 :: accRows) t = some (hdr0 :: accRows2) ∧
      rowsAligned vd base accRows2 (fun m => s m + cellInt (tableValueCell t m)) := by
  rcases tableOk_elim L t htab with ⟨hdrT, rowsT, vo, rfl, hvo, hTlen, hTall⟩
  have haccw : ∀ a ∈ accRows, vd < a.length := by
    intro a ha
    rcases List.get?_of_mem ha with ⟨m, hm⟩
    have hmlt : m < base.length := by
      rw [← halign.1]
      exact get?_some_lt _ _ _ hm
    cases hb : base.get? m with
    | none => exact absurd (List.get?_eq_none.mp hb) (by omega)
    | some b =>
      rcases halign.2 m b hb with ⟨r, h1, h2, _, _⟩
      rw [hm] at h1
      injection h1 with h1
      subst h1
      rw [h2]
      exact hwide b (List.get?_mem hb)
  rcases addValueRows_spec vd vo accRows rowsT
    (by rw [halign.1, hbaseL, hTlen]) haccw with ⟨r, hr, hrlen, hprop⟩
  refine ⟨r, ?_, ?_, ?_⟩
  · simp only [mergeQueryResult, hvo]
    rw [hr]
    rfl
  · rw [hrlen, halign.1]
  · intro m b hb
    rcases halign.2 m b hb with ⟨r0, h1, h2, h3, h4⟩
    rcases hprop m r0 h1 with ⟨a2, g1, g2, g3, g4⟩
    have hmlt : m < L := by
      rw [← hbaseL]
      exact get?_some_lt _ _ _ hb
    have hTm : ∃ bt, rowsT.get? m = some bt := by
      cases hbt : rowsT.get? m with
      | none => exact absurd (List.get?_eq_none.mp hbt) (by omega)
      | some bt => exact ⟨bt, rfl⟩
    rcases hTm with ⟨bt, hbt⟩
    have hnum := (hTall bt (List.get?_mem hbt)).2
    refine ⟨a2, g1, by rw [g2, h2], fun j hj => by rw [g3 j hj, h3 j hj], ?_⟩
    rw [g4, h4, hbt]
    rw [show ((some (some (Value.num (s m))) : Option Cell).getD none) =
      some (Value.num (s m)) from rfl]
    rw [show ((((some bt : Option CsvRow).getD []).get? vo)) = bt.get? vo from rfl]
    rw [isNumCell_exists _ hnum]
    have htv : tableValueCell (some (hdrT :: rowsT)) m = (bt.get? vo).getD none := by
      simp only [tableValueCell, hvo, rowCellAt, hbt, Option.getD_some]
    show _ = some (some (Value.num (s m + cellInt (tableValueCell (some (hdrT :: rowsT)) m))))
    rw [htv]
    rfl

theorem mergeResults_aligned (vd : Nat) (hdr0 : CsvRow) (base : CsvArray) (L : Nat)
    (hbaseL : base.length = L) (hwide : ∀ b ∈ base, vd < b.length) :
    ∀ (ts : List (Option CsvArray)) (accRows : CsvArray) (s : Nat → Int),
    rowsAligned vd base accRows s →
    (∀ t ∈ ts, tableOk L t = true) →
    ∃ finalRows, ts.foldlM (mergeQueryResult vd) (hdr0 :: accRows) = some (hdr0 :: finalRows) ∧
      rowsAligned vd base finalRows
        (fun m => s m + (ts.map (fun t => cellInt (tableValueCell t m))).sum) := by
  intro ts
  induction ts with
  | nil =>
    intro accRows s halign _
    refine ⟨accRows, rfl, ?_⟩
    refine rowsAligned_congr vd base accRows s _ (fun m => ?_) halign
    show s m = s m + (([] : List (Option CsvArray)).map
      (fun t => cellInt (tableValueCell t m))).sum
    simp
  | cons t ts ih =>
    intro accRows s halign hts
    rcases mergeQueryResult_step vd hdr0 base accRows s t L hbaseL hwide halign
      (hts t (List.mem_cons_self _ _)) with ⟨acc2, hstep, halign2⟩
    rcases ih acc2 _ halign2 (fun x hx => hts x (List.mem_cons_of_mem _ hx)) with
      ⟨fr, hfold, hfin⟩
    refine ⟨fr, ?_, ?_⟩
    · rw [List.foldlM_cons, hstep]
      exact hfold
    · refine rowsAligned_congr vd base fr _ _ (fun m => ?_) hfin
      show (s m + cellInt (tableValueCell t m)) +
          (ts.map (fun t => cellInt (tableValueCell t m))).sum =
        s m + ((t :: ts).map (fun t => cellInt (tableValueCell t m))).sum
      rw [List.map_cons, List.sum_cons, add_assoc]

theorem mergeResults_spec (L : Nat) (hdr : CsvRow) (rows0 : CsvArray)
    (rest : List (Option CsvArray)) (vd : Nat)
    (h0 : tableOk L (some (hdr :: rows0)) = true)
    (hvd : indexOfValueCol hdr = some vd)
    (hrest : ∀ t ∈ rest, tableOk L t = true) :
    ∃ finalRows, mergeResults (some (hdr :: rows0) :: rest) = some (hdr :: finalRows) ∧
      finalRows.length = L ∧
      ∀ m b, rows0.get? m = some b → ∃ r, finalRows.get? m = some r ∧
        r.length = b.length ∧
        (∀ j, j ≠ vd → r.get? j = b.get? j) ∧
        r.get? vd = some (some (.num (((some (hdr :: rows0) :: rest).map
          (fun t => cellInt (tableValueCell t m))).sum))) := by
  rcases tableOk_elim L _ h0 with ⟨hdr2, rows2, vd2, heq, hvo2, hlen2, hall2⟩
  injection heq with heq
  injection heq with heqh heqr
  subst heqh
  subst heqr
  rw [hvd] at hvo2
  injection hvo2 with hvo2
  subst hvo2
  have hvd2 : hdr.findIdx? (fun c => c = some (Value.str "Value")) = some vd := hvd
  have hwide : ∀ b ∈ rows0, vd < b.length := by
    intro b hb
    rw [(hall2 b hb).1]
    rcases findIdx?_found _ _ _ hvd2 with ⟨a, hga, _, _⟩
    exact get?_some_lt _ _ _ hga
  have halign0 : rowsAligned vd rows0 rows0
      (fun m => cellInt (tableValueCell (some (hdr :: rows0)) m)) := by
    refine ⟨rfl, ?_⟩
    intro m b hb
    refine ⟨b, hb, rfl, fun j hj => rfl, ?_⟩
    have hnum := (hall2 b (List.get?_mem hb)).2
    have hlt : vd < b.length := hwide b (List.get?_mem hb)
    cases hc : b.get? vd with
    | none =>
      have := List.get?_eq_none.mp hc
      omega
    | some c =>
      rw [hc, Option.getD_some] at hnum
      have hcc := isNumCell_exists c hnum
      have htv : tableValueCell (some (hdr :: rows0)) m = c := by
        simp only [tableValueCell, hvd, rowCellAt, hb, Option.getD_some, hc]
      show some c = some (some (Value.num (cellInt (tableValueCell (some (hdr :: rows0)) m))))
      rw [htv]
      exact congrArg some hcc
  rcases mergeResults_aligned vd hdr rows0 L hlen2 hwide rest rows0 _ halign0 hrest with
    ⟨fr, hfold, hfin⟩
  refine ⟨fr, ?_, ?_, ?_⟩
  · simp only [mergeResults, hvd]
    exact hfold
  · rw [hfin.1, hlen2]
  · intro m b hb
    rcases hfin.2 m b hb with ⟨r, h1, h2, h3, h4⟩
    refine ⟨r, h1, h2, h3, ?_⟩
    rw [h4]
    show some (some (Value.num (cellInt (tableValueCell (some (hdr :: rows0)) m) +
      (rest.map (fun t => cellInt (tableValueCell t m))).sum))) = _
    rw [List.map_cons, List.sum_cons]

theorem updateAbsResults_activeCodes (fetch : String → CsvArray) (st : AbsItemState) :
    (updateAbsResults fetch st).activeCodes = absActiveCodes st := by
  simp only [updateAbsResults, absActiveCodes]
  split
  · rfl
  · rfl

theorem updateAbsResults_fields (fetch : String → CsvArray) (st : AbsItemState)
    (hcond : ¬(((st.datasetItems.map (fun c => appendActiveCodes c.name c.items)).any
      (fun l => l.isEmpty)) = true)) :
    (updateAbsResults fetch st).queryFilters = buildQueryFilters (absActiveCodes st) [] ∧
    (updateAbsResults fetch st).currentQueryList =
      (buildQueryFilters (absActiveCodes st) []).map (fun f => queryUrl st f) ∧
    (updateAbsResults fetch st).queryListAfter =
      st.queryList ++ (((buildQueryFilters (absActiveCodes st) []).map
        (fun f => queryUrl st f)).filter
          (fun u => (getQueryData st.queryList u).isNone)).map (fun u => (u, fetch u)) ∧
    (updateAbsResults fetch st).outcome =
      match mergeResults (((updateAbsResults fetch st).currentQueryList).map
        (getQueryData ((updateAbsResults fetch st).queryListAfter))) with
      | some f => .updated f
          (replaceFirstStr (serializeCsv f) (",REGION,") ("," ++ st.regionType ++ ","))
      | none => .mergeFailed := by
  refine ⟨?_, ?_, ?_, ?_⟩
  · simp only [updateAbsResults]
    rw [if_neg hcond]
    exact rfl
  · simp only [updateAbsResults]
    rw [if_neg hcond]
    exact rfl
  · simp only [updateAbsResults]
    rw [if_neg hcond]
    exact rfl
  · conv =>
      rhs
      rw [show (updateAbsResults fetch st).currentQueryList =
        (buildQueryFilters (absActiveCodes st) []).map (fun f => queryUrl st f) from by
          simp only [updateAbsResults]
          rw [if_neg hcond]
          exact rfl]
      rw [show (updateAbsResults fetch st).queryListAfter =
        st.queryList ++ (((buildQueryFilters (absActiveCodes st) []).map
          (fun f => queryUrl st f)).filter
            (fun u => (getQueryData st.queryList u).isNone)).map (fun u => (u, fetch u)) from by
          simp only [updateAbsResults]
          rw [if_neg hcond]
          exact rfl]
    simp only [updateAbsResults, absActiveCodes]
    rw [if_neg hcond]

/-- **C1**.  For a valid selection, `updateAbsResults` builds exactly the
cross product of the per-concept active-code lists — the number of
combination queries is the product of the per-concept counts, and the
filters are exactly the one-code-per-concept choices — and when every
combination's result table aligns (same row count `L`, a 'Value' column,
numeric entries), the merged table's value column at each data row is the
sum over all combination result tables of that row's 'Value' entry. -/
theorem abs_crossProduct_total_sum (fetch : String → CsvArray) (st : AbsItemState) (L : Nat)
    (hne : st.datasetItems ≠ [])
    (hnz : ∀ codes ∈ (updateAbsResults fetch st).activeCodes, codes ≠ [])
    (htab : ∀ u ∈ (updateAbsResults fetch st).currentQueryList,
      tableOk L (getQueryData (updateAbsResults fetch st).queryListAfter u) = true) :
    (updateAbsResults fetch st).queryFilters.length =
      ((updateAbsResults fetch st).activeCodes.map List.length).prod ∧
    (∀ f, f ∈ (updateAbsResults fetch st).queryFilters ↔
      List.Forall₂ (fun c codes => c ∈ codes) f (updateAbsResults fetch st).activeCodes) ∧
    ∃ hdr finalRows vd,
      (updateAbsResults fetch st).outcome = .updated (hdr :: finalRows)
        (replaceFirstStr (serializeCsv (hdr :: finalRows)) (",REGION,")
          ("," ++ st.regionType ++ ",")) ∧
      indexOfValueCol hdr = some vd ∧
      finalRows.length = L ∧
      ∀ m, m < L → rowCellAt finalRows m vd = some (.num
        ((((updateAbsResults fetch st).currentQueryList.map
          (getQueryData (updateAbsResults fetch st).queryListAfter)).map
            (fun t => cellInt (tableValueCell t m))).sum)) := by
  have hAC := updateAbsResults_activeCodes fetch st
  rw [hAC] at hnz
  have hcond : ¬(((st.datasetItems.map (fun c => appendActiveCodes c.name c.items)).any
      (fun l => l.isEmpty)) = true) := by
    intro hc
    rcases List.any_eq_true.mp hc with ⟨l, hl, he⟩
    exact hnz l hl (List.isEmpty_iff.mp he)
  rcases updateAbsResults_fields fetch st hcond with ⟨hQF, hQ, hQL, hOut⟩
  have hAne : absActiveCodes st ≠ [] := by
    cases hd : st.datasetItems with
    | nil => exact absurd hd hne
    | cons x xs => simp [absActiveCodes, hd]
  refine ⟨?_, ?_, ?_⟩
  · rw [hQF, hAC]
    exact buildQueryFilters_length _ [] hAne
  · intro f
    rw [hQF, hAC]
    rw [buildQueryFilters_mem _ [] f hAne]
    constructor
    · rintro ⟨g, hg, rfl⟩
      exact hg
    · intro h
      exact ⟨f, h, rfl⟩
  · have hFne : buildQueryFilters (absActiveCodes st) [] ≠ [] := by
      have hlen := buildQueryFilters_length (absActiveCodes st) [] hAne
      have hpos : 0 < ((absActiveCodes st).map List.length).prod := by
        apply List.prod_pos
        intro a ha
        rcases List.mem_map.mp ha with ⟨codes, hcm, rfl⟩
        exact List.length_pos.mpr (hnz codes hcm)
      intro hFnil
      rw [hFnil] at hlen
      rw [← hlen] at hpos
      exact absurd hpos (by simp)
    have hQne : (updateAbsResults fetch st).currentQueryList ≠ [] := by
      rw [hQ]
      cases hF : buildQueryFilters (absActiveCodes st) [] with
      | nil => exact absurd hF hFne
      | cons f0 frest => simp
    cases hQc : (updateAbsResults fetch st).currentQueryList with
    | nil => exact absurd hQc hQne
    | cons u0 us =>
      have hts : ((updateAbsResults fetch st).currentQueryList).map
          (getQueryData ((updateAbsResults fetch st).queryListAfter)) =
        getQueryData ((updateAbsResults fetch st).queryListAfter) u0 ::
          us.map (getQueryData ((updateAbsResults fetch st).queryListAfter)) := by
        rw [hQc]
        rfl
      have ht0 : tableOk L (getQueryData ((updateAbsResults fetch st).queryListAfter) u0) = true :=
        htab u0 (by rw [hQc]; exact List.mem_cons_self _ _)
      rcases tableOk_elim L _ ht0 with ⟨hdr, rows0, vd, heq, hvo, hlen0, hall0⟩
      have hrest : ∀ t ∈ us.map (getQueryData ((updateAbsResults fetch st).queryListAfter)),
          tableOk L t = true := by
        intro t htm
        rcases List.mem_map.mp htm with ⟨u, hu, rfl⟩
        exact htab u (by rw [hQc]; exact List.mem_cons_of_mem _ hu)
      have h0ok : tableOk L (some (hdr :: rows0)) = true := by
        rw [← heq]
        exact ht0
      rcases mergeResults_spec L hdr rows0 _ vd h0ok hvo hrest with ⟨fr, hmerge, hfrlen, hprop⟩
      refine ⟨hdr, fr, vd, ?_, hvo, hfrlen, ?_⟩
      · rw [hOut, hts, heq, hmerge]
      · intro m hm
        have hb : ∃ b, rows0.get? m = some b := by
          cases hbb : rows0.get? m with
          | none =>
            have := List.get?_eq_none.mp hbb
            omega
          | some b => exact ⟨b, rfl⟩
        rcases hb with ⟨b, hb⟩
        rcases hprop m b hb with ⟨r, h1, _, _, h4⟩
        rw [List.map_cons, heq]
        simp only [rowCellAt, h1, Option.getD_some, h4]

/-- Witness for C1: two concepts of two active codes each yield exactly
four combination queries, and each merged row's value is the sum of the
four per-row 'Value' entries (1+3+5+7 = 16 and 2+4+6+8 = 20). -/
theorem abs_crossProduct_total_sum_witness :
    (((updateAbsResults exAbsFetch exAbsState).activeCodes.map List.length).prod = 4 ∧
      (updateAbsResults exAbsFetch exAbsState).outcome = .updated
        (exAbsTable 16 20) "ind,STE,Value\n9,101,16\n9,102,20") ∧
    (updateAbsResults exAbsFetch exAbsState).queryFilters.length =
      ((updateAbsResults exAbsFetch exAbsState).activeCodes.map List.length).prod ∧
    ∃ hdr finalRows vd,
      (updateAbsResults exAbsFetch exAbsState).outcome = .updated (hdr :: finalRows)
        (replaceFirstStr (serializeCsv (hdr :: finalRows)) (",REGION,")
          ("," ++ exAbsState.regionType ++ ",")) ∧
      indexOfValueCol hdr = some vd ∧
      finalRows.length = 2 ∧
      ∀ m, m < 2 → rowCellAt finalRows m vd = some (.num
        ((((updateAbsResults exAbsFetch exAbsState).currentQueryList.map
          (getQueryData (updateAbsResults exAbsFetch exAbsState).queryListAfter)).map
            (fun t => cellInt (tableValueCell t m))).sum)) :=
  ⟨⟨by decide, by decide⟩,
   (abs_crossProduct_total_sum exAbsFetch exAbsState 2
     (by intro h; exact List.noConfusion h) (by decide) (by decide)).1,
   (abs_crossProduct_total_sum exAbsFetch exAbsState 2
     (by intro h; exact List.noConfusion h) (by decide) (by decide)).2.2⟩

/-- **C2** (counterexample).  Merging two result tables of three columns
each yields a three-column table again: no 'Value' column is renamed
'Total', no per-combination column is appended, and the region-id column
header still reads 'REGION' in the merged array (only the serialised
text has the first ',REGION,' replaced by the region type). -/
theorem abs_merge_append_counterexample :
    (updateAbsResults exC2Fetch exC2State).currentQueryList.length = 2 ∧
    (updateAbsResults exC2Fetch exC2State).outcome =
      .updated (exAbsTable 30 32) "ind,STE,Value\n9,101,30\n9,102,32" ∧
    (∀ row ∈ exAbsTable 30 32, row.length = 3) ∧
    (∀ row ∈ exAbsTable 30 32, some (.str "Total") ∉ row) ∧
    (exAbsTable 30 32).head? =
      some [some (.str "ind"), some (.str "REGION"), some (.str "Value")] ∧
    serializeCsv (exAbsTable 30 32) = "ind,REGION,Value\n9,101,30\n9,102,32" := by decide

/-- **C2** (amended).  The first result's rows seed the merged table
verbatim: its header (including its own 'Value' and region-id cells) is
kept unchanged, every subsequent result's 'Value' column is summed
element-wise into the FIRST table's value column in place, row widths
never change (no column is appended and none is renamed in the array),
and the region-type substitution happens only in the serialised text
(first ',REGION,' occurrence). -/
theorem abs_merge_structure (fetch : String → CsvArray) (st : AbsItemState) (L : Nat)
    (hne : st.datasetItems ≠ [])
    (hnz : ∀ codes ∈ (updateAbsResults fetch st).activeCodes, codes ≠ [])
    (htab : ∀ u ∈ (updateAbsResults fetch st).currentQueryList,
      tableOk L (getQueryData (updateAbsResults fetch st).queryListAfter u) = true) :
    ∃ hdr rows0 finalRows vd,
      ((updateAbsResults fetch st).currentQueryList.map
        (getQueryData (updateAbsResults fetch st).queryListAfter)).head? =
        some (some (hdr :: rows0)) ∧
      indexOfValueCol hdr = some vd ∧
      (updateAbsResults fetch st).outcome = .updated (hdr :: finalRows)
        (replaceFirstStr (serializeCsv (hdr :: finalRows)) (",REGION,")
          ("," ++ st.regionType ++ ",")) ∧
      finalRows.length = rows0.length ∧
      ∀ m b, rows0.get? m = some b → ∃ r, finalRows.get? m = some r ∧
        r.length = b.length ∧ ∀ j, j ≠ vd → r.get? j = b.get? j := by
  have hAC := updateAbsResults_activeCodes fetch st
  rw [hAC] at hnz
  have hcond : ¬(((st.datasetItems.map (fun c => appendActiveCodes c.name c.items)).any
      (fun l => l.isEmpty)) = true) := by
    intro hc
    rcases List.any_eq_true.mp hc with ⟨l, hl, he⟩
    exact hnz l hl (List.isEmpty_iff.mp he)
  rcases updateAbsResults_fields fetch st hcond with ⟨hQF, hQ, hQL, hOut⟩
  have hAne : absActiveCodes st ≠ [] := by
    cases hd : st.datasetItems with
    | nil => exact absurd hd hne
    | cons x xs => simp [absActiveCodes, hd]
  have hFne : buildQueryFilters (absActiveCodes st) [] ≠ [] := by
    have hlen := buildQueryFilters_length (absActiveCodes st) [] hAne
    have hpos : 0 < ((absActiveCodes st).map List.length).prod := by
      apply List.prod_pos
      intro a ha
      rcases List.mem_map.mp ha with ⟨codes, hcm, rfl⟩
      exact List.length_pos.mpr (hnz codes hcm)
    intro hFnil
    rw [hFnil] at hlen
    rw [← hlen] at hpos
    exact absurd hpos (by simp)
  have hQne : (updateAbsResults fetch st).currentQueryList ≠ [] := by
    rw [hQ]
    cases hF : buildQueryFilters (absActiveCodes st) [] with
    | nil => exact absurd hF hFne
    | cons f0 frest => simp
  cases hQc : (updateAbsResults fetch st).currentQueryList with
  | nil => exact absurd hQc hQne
  | cons u0 us =>
    have hts : ((updateAbsResults fetch st).currentQueryList).map
        (getQueryData ((updateAbsResults fetch st).queryListAfter)) =
      getQueryData ((updateAbsResults fetch st).queryListAfter) u0 ::
        us.map (getQueryData ((updateAbsResults fetch st).queryListAfter)) := by
      rw [hQc]
      rfl
    have ht0 : tableOk L (getQueryData ((updateAbsResults fetch st).queryListAfter) u0) = true :=
      htab u0 (by rw [hQc]; exact List.mem_cons_self _ _)
    rcases tableOk_elim L _ ht0 with ⟨hdr, rows0, vd, heq, hvo, hlen0, hall0⟩
    have hrest : ∀ t ∈ us.map (getQueryData ((updateAbsResults fetch st).queryListAfter)),
        tableOk L t = true := by
      intro t htm
      rcases List.mem_map.mp htm with ⟨u, hu, rfl⟩
      exact htab u (by rw [hQc]; exact List.mem_cons_of_mem _ hu)
    have h0ok : tableOk L (some (hdr :: rows0)) = true := by
      rw [← heq]
      exact ht0
    rcases mergeResults_spec L hdr rows0 _ vd h0ok hvo hrest with ⟨fr, hmerge, hfrlen, hprop⟩
    refine ⟨hdr, rows0, fr, vd, ?_, hvo, ?_, ?_, ?_⟩
    · rw [List.map_cons, List.head?_cons, heq]
    · rw [hOut, hts, heq, hmerge]
    · rw [hfrlen, hlen0]
    · intro m b hb
      rcases hprop m b hb with ⟨r, h1, h2, h3, _⟩
      exact ⟨r, h1, h2, h3⟩

/-- Witness for C2: the two-table merge of the counterexample run, through
the amended structure theorem. -/
theorem abs_merge_structure_witness :
    ∃ hdr rows0 finalRows vd,
      ((updateAbsResults exC2Fetch exC2State).currentQueryList.map
        (getQueryData (updateAbsResults exC2Fetch exC2State).queryListAfter)).head? =
        some (some (hdr :: rows0)) ∧
      indexOfValueCol hdr = some vd ∧
      (updateAbsResults exC2Fetch exC2State).outcome = .updated (hdr :: finalRows)
        (replaceFirstStr (serializeCsv (hdr :: finalRows)) (",REGION,")
          ("," ++ exC2State.regionType ++ ",")) ∧
      finalRows.length = rows0.length ∧
      ∀ m b, rows0.get? m = some b → ∃ r, finalRows.get? m = some r ∧
        r.length = b.length ∧ ∀ j, j ≠ vd → r.get? j = b.get? j :=
  abs_merge_structure exC2Fetch exC2State 2
    (by intro h; exact List.noConfusion h) (by decide) (by decide)
